import Mathlib

/-!
Verification of the expert/reviewer refinement system
(`extract_competitor_pricing.py`, `occupancy_forecast_api.py`).

Python strings are modelled as `List Char` (`PyStr`).  `json.loads` /
`json.dumps` are modelled by an executable JSON parser and serializer over a
`Json` inductive; model restrictions (documented at the definitions): JSON
numbers are integers (no decimal/exponent forms), `\uXXXX` string escapes are
not modelled, object members are kept as a key/value list in source order, and
`str.upper` is modelled on ASCII.  The module `generic` (providing
`refine_with_expert_reviewer_loop`) is not part of the repository sources, so
the refinement loop is modelled from the spec where indicated.
-/

namespace Dashboard

abbrev PyStr := List Char

/-- Whitespace characters recognised by the JSON scanner and `str.strip()`. -/
def isWsChar (c : Char) : Bool :=
  c = ' ' || c = '\t' || c = '\n' || c = '\r'

def skipWs (s : PyStr) : PyStr := s.dropWhile isWsChar

def isDigitChar (c : Char) : Bool := '0' ≤ c && c ≤ '9'

/-- Boolean prefix test (model of `str.startswith`, also used by the
keyword scanner). -/
def isPre : PyStr → PyStr → Bool
  | [], _ => true
  | _ :: _, [] => false
  | p :: ps, c :: cs => p = c && isPre ps cs

/-! ## JSON values -/

/-- JSON values as produced by `json.loads`.  Numbers are modelled as
integers; object members are the key/value pairs in source order. -/
inductive Json where
  | null : Json
  | bool (b : Bool) : Json
  | num (n : Int) : Json
  | str (s : PyStr) : Json
  | arr (l : List Json) : Json
  | obj (m : List (PyStr × Json)) : Json

/-! ## Serialization (model of `json.dumps` with default separators) -/

/-- Escape a single character inside a JSON string literal. -/
def escChar (c : Char) : PyStr :=
  if c = '"' then ['\\', '"']
  else if c = '\\' then ['\\', '\\']
  else if c = '\n' then ['\\', 'n']
  else if c = '\t' then ['\\', 't']
  else if c = '\r' then ['\\', 'r']
  else [c]

def escStr (s : PyStr) : PyStr := (s.map escChar).flatten

/-- Decimal digit character for `n < 10`. -/
def digitChar (n : Nat) : Char := Char.ofNat (48 + n)

/-- Decimal digits of a natural number (fuel-based so that it reduces). -/
def natDigitsAux : Nat → Nat → PyStr
  | 0, _ => []
  | f + 1, n => if n < 10 then [digitChar n]
                else natDigitsAux f (n / 10) ++ [digitChar (n % 10)]

def natDigits (n : Nat) : PyStr := natDigitsAux (n + 1) n

def intChars (n : Int) : PyStr :=
  if n < 0 then '-' :: natDigits n.natAbs else natDigits n.toNat

mutual

/-- Model of `json.dumps` (default separators `", "` and `": "`). -/
def ser : Json → PyStr
  | .null => "null".toList
  | .bool true => "true".toList
  | .bool false => "false".toList
  | .num n => intChars n
  | .str s => '"' :: (escStr s ++ ['"'])
  | .arr l => '[' :: (serElems l ++ [']'])
  | .obj m => '{' :: (serMembers m ++ ['}'])

def serElems : List Json → PyStr
  | [] => []
  | v :: tl => ser v ++ serElemsTail tl

def serElemsTail : List Json → PyStr
  | [] => []
  | v :: tl => ',' :: ' ' :: (ser v ++ serElemsTail tl)

def serMembers : List (PyStr × Json) → PyStr
  | [] => []
  | (k, v) :: tl => '"' :: (escStr k ++ ['"', ':', ' ']) ++ ser v ++ serMembersTail tl

def serMembersTail : List (PyStr × Json) → PyStr
  | [] => []
  | (k, v) :: tl =>
      ',' :: ' ' :: ('"' :: (escStr k ++ ['"', ':', ' ']) ++ ser v ++ serMembersTail tl)

end

/-! ## Parsing (model of `json.loads`) -/

/-- Reverse a single-character escape inside a JSON string literal
(`\uXXXX` escapes are outside the model). -/
def unescChar (c : Char) : Except PyStr Char :=
  if c = '"' then .ok '"'
  else if c = '\\' then .ok '\\'
  else if c = '/' then .ok '/'
  else if c = 'n' then .ok '\n'
  else if c = 't' then .ok '\t'
  else if c = 'r' then .ok '\r'
  else if c = 'b' then .ok (Char.ofNat 8)
  else if c = 'f' then .ok (Char.ofNat 12)
  else .error ('i' :: 'n' :: 'v' :: 'a' :: 'l' :: 'i' :: 'd' :: ' ' :: '\\' :: 'e' :: 's' :: 'c' :: 'a' :: 'p' :: 'e' :: [])

/-- Parse the body of a JSON string literal (the opening quote already
consumed); returns the decoded characters and the input after the closing
quote. -/
def parseStrBody : PyStr → Except PyStr (PyStr × PyStr)
  | [] => .error "Unterminated string".toList
  | c :: rest =>
    if c = '"' then .ok ([], rest)
    else if c = '\\' then
      match rest with
      | [] => .error "Unterminated string".toList
      | e :: rest2 => do
          let u ← unescChar e
          let (s, r) ← parseStrBody rest2
          .ok (u :: s, r)
    else (parseStrBody rest).map (fun p => (c :: p.1, p.2))

/-- Accumulate decimal digits, most significant first. -/
def digitsToNat (ds : PyStr) : Nat :=
  ds.foldl (fun a c => 10 * a + (c.toNat - 48)) 0

/-- Parse a JSON number (integer grammar: optional `-`, then `0` or a
nonzero-led digit run; decimal and exponent forms are outside the model). -/
def parseNum : PyStr → Except PyStr (Json × PyStr)
  | [] => .error "Expecting value".toList
  | c :: rest =>
    if c = '-' then
      (match rest with
       | [] => .error "Expecting value".toList
       | d :: r =>
         if d = '0' then .ok (.num 0, r)
         else if isDigitChar d then
           .ok (.num (-(digitsToNat ((d :: r).takeWhile isDigitChar) : Int)),
                (d :: r).dropWhile isDigitChar)
         else .error "Expecting value".toList)
    else if c = '0' then .ok (.num 0, rest)
    else if isDigitChar c then
      .ok (.num (digitsToNat ((c :: rest).takeWhile isDigitChar) : Int),
           (c :: rest).dropWhile isDigitChar)
    else .error "Expecting value".toList

mutual

/-- Parse one JSON value from the head of the input (no leading-whitespace
skipping; callers pre-skip).  Fuel decreases on every recursive call; the
top-level entry point supplies enough fuel for any input (`parseWhole`). -/
def parseVal : Nat → PyStr → Except PyStr (Json × PyStr)
  | 0, _ => .error "Out of fuel".toList
  | _ + 1, [] => .error "Expecting value".toList
  | f + 1, c :: rest =>
    if c = 'n' then
      (if isPre "ull".toList rest then .ok (.null, rest.drop 3)
       else .error "Expecting value".toList)
    else if c = 't' then
      (if isPre "rue".toList rest then .ok (.bool true, rest.drop 3)
       else .error "Expecting value".toList)
    else if c = 'f' then
      (if isPre "alse".toList rest then .ok (.bool false, rest.drop 4)
       else .error "Expecting value".toList)
    else if c = '"' then
      (parseStrBody rest).map (fun p => (.str p.1, p.2))
    else if c = '[' then
      (if (skipWs rest).head? = some ']' then .ok (.arr [], (skipWs rest).tail)
       else (parseElems f (skipWs rest)).map (fun p => (.arr p.1, p.2)))
    else if c = '{' then
      (if (skipWs rest).head? = some '}' then .ok (.obj [], (skipWs rest).tail)
       else (parseMembers f (skipWs rest)).map (fun p => (.obj p.1, p.2)))
    else if c = '-' || isDigitChar c then
      parseNum (c :: rest)
    else .error "Expecting value".toList

/-- Parse the elements of a nonempty JSON array up to and including the
closing `]`. -/
def parseElems : Nat → PyStr → Except PyStr (List Json × PyStr)
  | 0, _ => .error "Out of fuel".toList
  | f + 1, cs => do
    let (v, r) ← parseVal f cs
    match skipWs r with
    | ',' :: r2 => (parseElems f (skipWs r2)).map (fun p => (v :: p.1, p.2))
    | ']' :: r2 => .ok ([v], r2)
    | _ => .error "Expecting delimiter".toList

/-- Parse the members of a nonempty JSON object up to and including the
closing `}`. -/
def parseMembers : Nat → PyStr → Except PyStr (List (PyStr × Json) × PyStr)
  | 0, _ => .error "Out of fuel".toList
  | f + 1, cs =>
    match cs with
    | '"' :: r0 => do
      let (k, r1) ← parseStrBody r0
      match skipWs r1 with
      | ':' :: r2 => do
        let (v, r3) ← parseVal f (skipWs r2)
        match skipWs r3 with
        | ',' :: r4 => (parseMembers f (skipWs r4)).map (fun p => ((k, v) :: p.1, p.2))
        | '}' :: r4 => .ok ([(k, v)], r4)
        | _ => .error "Expecting delimiter".toList
      | _ => .error "Expecting colon delimiter".toList
    | _ => .error "Expecting property name".toList

end

/-- Model of `json.loads`: skip whitespace, parse one value, require only
whitespace to remain. -/
def parseWhole (t : PyStr) : Except PyStr Json :=
  match parseVal (2 * t.length + 2) (skipWs t) with
  | .ok (v, r) => if skipWs r = [] then .ok v else .error "Extra data".toList
  | .error e => .error e

/-! ## The extraction pipeline of `extract_hotel_pricing` (source lines 101-109) -/

/-- The fence marker tested by `output_text.startswith("```json")`. -/
def fenceTag : PyStr := "```json".toList

/-- Model of `output_text.replace("```json", "")`: remove every occurrence of
the seven-character fence tag, scanning left to right without overlap. -/
def stripFences : PyStr → PyStr
  | '`' :: '`' :: '`' :: 'j' :: 's' :: 'o' :: 'n' :: rest => stripFences rest
  | c :: rest => c :: stripFences rest
  | [] => []

/-- Model of `.rstrip("```")`: remove all trailing backtick characters. -/
def rstripTicks (t : PyStr) : PyStr :=
  (t.reverse.dropWhile (fun c => c = '`')).reverse

/-- Model of `.strip()`: remove leading and trailing whitespace. -/
def pyStripWs (t : PyStr) : PyStr :=
  ((t.dropWhile isWsChar).reverse.dropWhile isWsChar).reverse

/-- The fence-cleaning branch: applied exactly when the text starts with the
fence tag. -/
def preprocess (t : PyStr) : PyStr :=
  if isPre fenceTag t then pyStripWs (rstripTicks (stripFences t)) else t

/-- Model of `re.search(r"\[.*\]", t, re.DOTALL)`: the leftmost-longest match
runs from the first `[` to the last `]`, provided the first `[` lies strictly
before the last `]`; otherwise there is no match.  Expressed via
`dropWhile`/`takeWhile`: drop the `[`-free prefix, then cut the `]`-free
suffix; `spanOf_eq_some_iff` below characterises it by decomposition. -/
def spanOf (t : PyStr) : Option PyStr :=
  if (t.reverse.takeWhile (fun c => c ≠ ']')).length + 2 ≤
      (t.dropWhile (fun c => c ≠ '[')).length then
    some ((t.dropWhile (fun c => c ≠ '[')).take
      ((t.dropWhile (fun c => c ≠ '[')).length -
        (t.reverse.takeWhile (fun c => c ≠ ']')).length))
  else none

/-- The text handed to `json.loads`: the regex span when one exists, the
(possibly fence-cleaned) whole text otherwise. -/
def candidate (t : PyStr) : PyStr :=
  match spanOf (preprocess t) with
  | some u => u
  | none => preprocess t

/-- The whole guarded extraction (the `try` body of lines 101-107). -/
def extractStructured (t : PyStr) : Except PyStr Json :=
  parseWhole (candidate t)

/-- The diagnostic element built in the `except` handler (source line 109). -/
def invalidJsonDiag (e : PyStr) : Json :=
  .obj [("error".toList, .str "Invalid JSON".toList), ("details".toList, .str e)]

/-- `competitors` as computed by the endpoint: the parsed value, or the
one-element diagnostic list when every strategy failed (lines 101-109). -/
def competitorsOf (t : PyStr) : Json :=
  match extractStructured t with
  | .ok v => v
  | .error e => .arr [invalidJsonDiag e]

/-- The `HotelPricingResponse` value when construction succeeds (lines
111-116). -/
def hotelPricingResponseJson (hn hl dr : PyStr) (competitors : Json) : Json :=
  .obj [("hotel_name".toList, .str hn), ("hotel_location".toList, .str hl),
        ("date_range".toList, .str dr), ("competitors".toList, competitors)]

def lookupKey (k : PyStr) : List (PyStr × Json) → Option Json
  | [] => none
  | (k', v) :: tl => if k' = k then some v else lookupKey k tl

/-- Pydantic validation of one `HotelInfo` element (source lines 19-22): the
three declared fields must be present, `hotel_name`/`hotel_location` as
strings and `price_per_night_usd` as a number; extra keys are ignored, as in
pydantic.  (Numeric-string coercions beyond this kind check are outside the
model; no claim exercises them.) -/
def validHotelInfo (j : Json) : Bool :=
  match j with
  | .obj m =>
    (match lookupKey "hotel_name".toList m with
     | some (.str _) => true
     | _ => false) &&
    (match lookupKey "hotel_location".toList m with
     | some (.str _) => true
     | _ => false) &&
    (match lookupKey "price_per_night_usd".toList m with
     | some (.num _) => true
     | _ => false)
  | _ => false

/-- Pydantic validation of the `competitors: List[HotelInfo]` field: a list
all of whose elements validate as `HotelInfo`. -/
def validCompetitors (j : Json) : Bool :=
  match j with
  | .arr l => l.all validHotelInfo
  | _ => false

/-- The exception pydantic raises when validation fails in
`HotelPricingResponse(...)`. -/
def pydanticValidationError : PyStr := "ValidationError".toList

/-- `HotelPricingResponse(...)` at line 111: pydantic validates the fields in
the constructor, so an invalid `competitors` value raises `ValidationError`
instead of producing a response. -/
def mkHotelPricingResponse (hn hl dr : PyStr) (competitors : Json) :
    Except PyStr Json :=
  if validCompetitors competitors then
    .ok (hotelPricingResponseJson hn hl dr competitors)
  else .error pydanticValidationError

/-- The post-loop portion of `extract_hotel_pricing` (lines 101-116): clean
and parse the loop's final output and construct the response; a validation
failure in the constructor is a raised exception (`.error`). -/
def pricingFinalize (hn hl dr output_text : PyStr) : Except PyStr Json :=
  mkHotelPricingResponse hn hl dr (competitorsOf output_text)

/-! ## Date validation of `extract_hotel_pricing` (source lines 37-43) -/

/-- Take at most `n` leading characters satisfying `p`. -/
def takeUpTo (n : Nat) (p : Char → Bool) (s : PyStr) : PyStr × PyStr :=
  let a := (s.take n).takeWhile p
  (a, s.drop a.length)

def isLeapYear (y : Nat) : Bool :=
  (y % 4 = 0 && y % 100 ≠ 0) || y % 400 = 0

def daysInMonth (y m : Nat) : Nat :=
  if m = 2 then (if isLeapYear y then 29 else 28)
  else if m = 4 || m = 6 || m = 9 || m = 11 then 30
  else 31

/-- Model of `datetime.strptime(s, "%Y-%m-%d")`: exactly four year digits
(CPython's `%Y` pattern is `\d\d\d\d`), a dash, one or two month digits, a
dash, one or two day digits, end of input; fields must form a valid calendar
date (datetime years run 1..9999, so `0000` is rejected). -/
def strptimeYmd (s : PyStr) : Option (Nat × Nat × Nat) :=
  let (ys, r1) := takeUpTo 4 isDigitChar s
  if ys.length ≠ 4 then none else
  match r1 with
  | '-' :: r2 =>
    let (ms, r3) := takeUpTo 2 isDigitChar r2
    if ms = [] then none else
    (match r3 with
     | '-' :: r4 =>
       let (ds, r5) := takeUpTo 2 isDigitChar r4
       if ds = [] then none else
       if r5 = [] then
         let y := digitsToNat ys
         let m := digitsToNat ms
         let d := digitsToNat ds
         if 1 ≤ y && y ≤ 9999 && 1 ≤ m && m ≤ 12 && 1 ≤ d && d ≤ daysInMonth y m then
           some (y, m, d)
         else none
       else none
     | _ => none)
  | _ => none

def monthName : Nat → PyStr
  | 1 => "January".toList
  | 2 => "February".toList
  | 3 => "March".toList
  | 4 => "April".toList
  | 5 => "May".toList
  | 6 => "June".toList
  | 7 => "July".toList
  | 8 => "August".toList
  | 9 => "September".toList
  | 10 => "October".toList
  | 11 => "November".toList
  | _ => "December".toList

/-- Model of `.strftime("%B %d, %Y")`. -/
def fmtDate : Nat × Nat × Nat → PyStr
  | (y, m, d) =>
      monthName m ++ " ".toList ++ (if d < 10 then '0' :: natDigits d else natDigits d)
        ++ ", ".toList ++ natDigits y

/-- The error object returned on a date-parse failure (source line 43). -/
def dateErrorJson : Json :=
  .obj [("error".toList, .str "Invalid date format. Use YYYY-MM-DD.".toList)]

/-! ## Acceptance predicate of the forecast use case (source line 80) -/

/-- Model of `str.upper` on ASCII (`Char.toUpper` uppercases exactly `a`-`z`;
non-ASCII case mapping is outside the model). -/
def pyUpper (s : PyStr) : PyStr := s.map Char.toUpper

def approvedToken : PyStr := "APPROVED".toList

/-- Boolean substring test (model of Python's `in` on strings). -/
def containsSub (pat : PyStr) : PyStr → Bool
  | [] => isPre pat []
  | c :: tl => isPre pat (c :: tl) || containsSub pat tl

/-- The acceptance lambda `lambda feedback: "APPROVED" in feedback.upper()`. -/
def forecastAccept (feedback : PyStr) : Bool :=
  containsSub approvedToken (pyUpper feedback)

/-! ## The refinement loop

Modelled from the spec: the module `generic` that defines
`refine_with_expert_reviewer_loop` (and the `PromptRenderer` it uses) is not
among the repository's source files, so `render`, `refine` and the associated
data model below follow the spec's §3, §4.1 and §4.4 word for word: bounded
iteration, expert pass, extraction to a diagnostic-or-value, reviewer pass,
acceptance check, append-only log, termination by acceptance or exhaustion,
and an immediate empty-log EXHAUSTED result for `max_iterations ≤ 0`. -/

abbrev Bindings := List (PyStr × PyStr)

def lookupBinding (k : PyStr) : Bindings → Option PyStr
  | [] => none
  | (k', v) :: tl => if k = k' then some v else lookupBinding k tl

/-- Modelled from the spec (§4.1): substitute every `{name}` placeholder with
its bound value; fail with the unresolved placeholder's name when a referenced
name is absent from the bindings.  The underlying mechanism is `str.format`,
so the literal-brace escapes `{{` and `}}` render as single braces and a
stray `}` is an error, as in Python.  Fuel decreases each step; the entry
point supplies more fuel than there are characters, so it never runs out. -/
def renderAux : Nat → PyStr → Bindings → Except PyStr PyStr
  | 0, _, _ => .error "Out of fuel".toList
  | _ + 1, [], _ => .ok []
  | f + 1, '{' :: '{' :: rest, b => (renderAux f rest b).map (fun s => '{' :: s)
  | f + 1, '}' :: '}' :: rest, b => (renderAux f rest b).map (fun s => '}' :: s)
  | f + 1, '{' :: rest, b =>
      let name := rest.takeWhile (fun c => c ≠ '}')
      (match rest.dropWhile (fun c => c ≠ '}') with
       | '}' :: tail =>
         (match lookupBinding name b with
          | some v => (renderAux f tail b).map (fun s => v ++ s)
          | none => .error name)
       | _ => .error name)
  | _ + 1, '}' :: _, _ => .error "Single brace encountered".toList
  | f + 1, c :: rest, b => (renderAux f rest b).map (fun s => c :: s)

def render (t : PyStr) (b : Bindings) : Except PyStr PyStr :=
  renderAux (t.length + 1) t b

/-- Modelled from the spec (§3 IterationRecord). -/
structure IterationRecord where
  iteration : Nat
  expertPrompt : PyStr
  rawExpertOutput : PyStr
  reviewerPrompt : PyStr
  rawReviewerOutput : PyStr
  accepted : Bool

/-- Modelled from the spec (§3 RefinementResult.terminated_by). -/
inductive TerminatedBy where
  | accepted
  | exhausted
deriving DecidableEq

/-- Modelled from the spec (§3 RefinementResult). -/
structure RefinementResult where
  finalOutput : PyStr
  log : List IterationRecord
  terminatedBy : TerminatedBy

/-- Modelled from the spec (§4.2 diagnostic value): the diagnostic the loop's
extractor feeds forward on parse failure. -/
def specDiag (e : PyStr) : Json :=
  .obj [("error".toList, .str "Invalid structured data".toList),
        ("details".toList, .str e)]

/-- Modelled from the spec (§4.4 step b): the extracted output bound into the
reviewer prompt, a value or the diagnostic, as text. -/
def extractedText (t : PyStr) : PyStr :=
  match extractStructured t with
  | .ok v => ser v
  | .error e => ser (specDiag e)

/-- Modelled from the spec (§4.3): default policy, never accept. -/
def defaultPolicy : PyStr → Bool := fun _ => false

/-- Modelled from the spec (§4.4 algorithm), the loop body; `fuel` is the
number of remaining iterations, `i` the 1-based iteration index. -/
def refineLoop (expertM reviewerM : PyStr → PyStr) (eT rT : PyStr)
    (extra : Bindings) (raw : PyStr) (policy : PyStr → Bool) :
    Nat → Nat → PyStr → List IterationRecord → Except PyStr RefinementResult
  | 0, _, cur, log => .ok ⟨cur, log.reverse, .exhausted⟩
  | fuel + 1, i, _, log =>
    match render eT (("raw_text".toList, raw) :: extra) with
    | .error e => .error e
    | .ok ep =>
      let eo := expertM ep
      let cur2 := extractedText eo
      match render rT (("extracted_output".toList, cur2) :: extra) with
      | .error e => .error e
      | .ok rp =>
        let ro := reviewerM rp
        let acc := policy ro
        let entry : IterationRecord := ⟨i, ep, eo, rp, ro, acc⟩
        if acc then .ok ⟨cur2, (entry :: log).reverse, .accepted⟩
        else refineLoop expertM reviewerM eT rT extra raw policy fuel (i + 1) cur2 (entry :: log)

/-- Modelled from the spec (§4.4 contract of `refine`); rendering failures
propagate (§7), everything else yields a `RefinementResult`. -/
def refine (expertM reviewerM : PyStr → PyStr) (eT rT : PyStr)
    (extra : Bindings) (raw : PyStr) (policy : PyStr → Bool)
    (maxIterations : Int) : Except PyStr RefinementResult :=
  refineLoop expertM reviewerM eT rT extra raw policy maxIterations.toNat 1 [] []

/-! ## Forecast use case (`occupancy_forecast_api.py`) -/

def lbrace : PyStr := ['{']
def rbrace : PyStr := ['}']

/-- `expert_prompt_template` of the forecast source (lines 24-46); the
source's `{{` and `}}` escapes are kept as the doubled braces they are in the
template text (built explicitly here), so that rendering collapses them to
literal braces exactly as `str.format` does. -/
def forecastExpertTemplate : PyStr :=
  "\nYou are a hotel revenue management AI specializing in booking prediction.\n\nHotel: {hotel_name}\nLocation: {hotel_location}\nForecast Period: {date_range}\n\nConfirmed Bookings Data:\n{confirmed_bookings}\n\nEvent Data:\n{events_json}\n\nTask:\n- Predict the **total bookings** for each day in the forecast period.\n- Base your prediction on confirmed bookings and relevant event data.\n\nRespond in JSON array format:\n[\n  ".toList
  ++ lbrace ++ lbrace
  ++ "\"date\": \"YYYY-MM-DD\", \"predicted_total_bookings\": <integer>, \"reasoning\": \"...\" ".toList
  ++ rbrace ++ rbrace
  ++ ",\n  ...\n]\n".toList

/-- `reviewer_prompt_template` of the forecast source (lines 48-63), with the
source's doubled-brace escapes kept as in the template text. -/
def forecastReviewerTemplate : PyStr :=
  "\nYou are a reviewer evaluating the predicted total bookings.\n\nEvent Data: {events_json}\n\nInstructions:\n- Ensure each entry includes \"date\", \"predicted_total_bookings\", and \"reasoning\".\n- Check for illogical or inconsistent predictions based on events and trends.\n- Suggest corrections if needed.\n\nForecast to Review:\n{extracted_output}\n\nRespond with:\n".toList
  ++ lbrace ++ lbrace
  ++ "\"feedback\": \"<review comments>\", \"corrected_forecast\": [ ... ]".toList
  ++ rbrace ++ rbrace
  ++ "\n".toList

/-- `BookingInput` (forecast source lines 11-17); the two `List[dict]` payloads
are carried as JSON values. -/
structure BookingInput where
  hotel_name : PyStr
  hotel_location : PyStr
  start_date : PyStr
  end_date : PyStr
  confirmed_bookings : List Json
  events_json : List Json

/-- `additional_format_kwargs` built by the forecast endpoint (lines 81-87);
`json.dumps(..., indent=2)` is modelled by the default serializer (the
indentation detail plays no role in any claim). -/
def forecastExtra (i : BookingInput) (dr : PyStr) : Bindings :=
  [("hotel_name".toList, i.hotel_name),
   ("hotel_location".toList, i.hotel_location),
   ("date_range".toList, dr),
   ("confirmed_bookings".toList, ser (.arr i.confirmed_bookings)),
   ("events_json".toList, ser (.arr i.events_json))]

/-- The first `@app.post("/forecast")` handler (lines 66-88): it runs the
refinement loop and then its body ends without a `return` statement, so on a
normal run it returns Python's implicit `None` (`.ok none`); an exception
raised by the loop call propagates out of the handler (`.error`). -/
def forecastHandlerFirst (expertM reviewerM : PyStr → PyStr) (i : BookingInput) :
    Except PyStr (Option Json) :=
  let dr := i.start_date ++ " to ".toList ++ i.end_date
  match refine expertM reviewerM forecastExpertTemplate forecastReviewerTemplate
      (forecastExtra i dr) [] forecastAccept 3 with
  | .error e => .error e
  | .ok _ => .ok none

/-- The two route registrations appearing in the forecast source: both
decorators declare `POST /forecast` (lines 66 and 90). -/
def forecastRouteRegistrations : List (PyStr × PyStr) :=
  [("POST".toList, "/forecast".toList), ("POST".toList, "/forecast".toList)]

/-- The response normalization of the second `/forecast` handler (lines
95-100): parse the loop's final output, or return the fixed error object. -/
def forecastFinalize (final_forecast : PyStr) : Json :=
  match parseWhole final_forecast with
  | .ok v => v
  | .error _ => .obj [("error".toList, .str "Invalid JSON format in forecast output.".toList)]

/-! ## Pricing use case (`extract_competitor_pricing.py`) -/

/-- The search query f-string (line 46). -/
def searchQueryText (hn hl : PyStr) : PyStr :=
  "Find top websites or sources that provide up-to-date competitive hotel pricing information for \"".toList
  ++ hn ++ "\" and surrounding areas in \"".toList ++ hl ++ "\".".toList

/-- `expert_prompt_template` of the pricing source (lines 49-68): an f-string,
so `hotel_name`, `hotel_location` and the date range are already substituted
and only `{raw_text}` remains a placeholder. -/
def pricingExpertTemplate (hn hl dr : PyStr) : PyStr :=
  "\nYou are a hotel pricing expert with access to raw scraped data.\n\nYour task:\n- Identify the top 5 real competitor hotels near \"".toList
  ++ hn ++ "\", located in \"".toList ++ hl
  ++ "\".\n- Only include legitimate competitors (exclude hostels, dorms, or motels unless explicitly relevant).\n- Base competitor selection and pricing on hotel category (e.g., luxury, boutique, mid-scale, budget).\n- Ensure that prices are realistic for the market, season, and demand, and specific to the date range: ".toList
  ++ dr
  ++ ".\n\nFor each competitor, provide:\n- \"hotel_name\": string\n- \"hotel_location\": string (including city and state if available)\n- \"price_per_night_usd\": number (integer or float)\n\nOutput format:\nReturn only a strict JSON array containing exactly 5 hotel objects. Do not add any explanation or commentary. Only include valid JSON.\n\nText:\n{raw_text}\n".toList

/-- `reviewer_prompt_template` of the pricing source (lines 71-86): an
f-string leaving only `{extracted_output}` as a placeholder. -/
def pricingReviewerTemplate (hl dr : PyStr) : PyStr :=
  "\nYou are a hotel pricing reviewer.\n\nInstructions:\n- Carefully review the JSON list of hotels and their prices below:\n{extracted_output}\n- Validate that pricing logic makes sense (e.g., star rating vs. price, luxury vs. budget).\n- Detect and flag any unrealistic entries or outliers.\n- Confirm that the dates are within the specified range: ".toList
  ++ dr
  ++ ".\n- Ensure that all competitors are located near or in \"".toList ++ hl
  ++ "\".\n- Ensure output is a valid JSON array of exactly 5 hotel objects with fields: \"hotel_name\", \"hotel_location\", \"price_per_night_usd\".\n- Do not include any explanation or text outside the JSON.\n\nOutput format:\nReturn only the strict JSON array of hotel objects, fully corrected and sorted by price if necessary.\n".toList

/-- Model of `"\n\n".join` and friends. -/
def joinSep (sep : PyStr) : List PyStr → PyStr
  | [] => []
  | [x] => x
  | x :: tl => x ++ sep ++ joinSep sep tl

/-- The `/extract_hotel_pricing` endpoint (lines 31-116).  Web search,
scraping and the two models are opaque collaborators passed in; a rendering
failure inside the loop and a pydantic `ValidationError` raised by the
response constructor both propagate as `.error` (uncaught exceptions in the
source), every other path returns a value. -/
def extract_hotel_pricing (search : PyStr → List PyStr)
    (scrape : List PyStr → List PyStr) (expertM reviewerM : PyStr → PyStr)
    (hn hl sd ed : PyStr) : Except PyStr Json :=
  match strptimeYmd sd with
  | none => .ok dateErrorJson
  | some d1 =>
    match strptimeYmd ed with
    | none => .ok dateErrorJson
    | some d2 =>
      let dr := fmtDate d1 ++ " - ".toList ++ fmtDate d2
      let urls := search (searchQueryText hn hl)
      let raws := scrape urls
      let combined := joinSep "\n\n".toList raws
      match refine expertM reviewerM (pricingExpertTemplate hn hl dr)
          (pricingReviewerTemplate hl dr) [] combined defaultPolicy 3 with
      | .error e => .error e
      | .ok r => pricingFinalize hn hl dr r.finalOutput

/-- The field list declared by the `HotelPricingResponse` pydantic model
(source lines 24-28). -/
def hotelPricingResponseKeys : List PyStr :=
  ["hotel_name".toList, "hotel_location".toList, "date_range".toList,
   "competitors".toList]

/-- Whether a JSON object has exactly the declared `HotelPricingResponse`
field list. -/
def isHotelPricingShape (j : Json) : Bool :=
  match j with
  | .obj m => m.map Prod.fst == hotelPricingResponseKeys
  | _ => false

/-- The decomposition reading of the regex `\[.*\]` under `re.DOTALL`: `u` is
the (unique) segment running from the first `[` of `t` to the last `]`. -/
def IsGreedySpan (t u : PyStr) : Prop :=
  ∃ a mid b, t = a ++ u ++ b ∧ u = '[' :: (mid ++ [']']) ∧ '[' ∉ a ∧ ']' ∉ b

/-! ## Size measures for the round-trip proofs -/

mutual

/-- Node count of a JSON value; `2 * jsize v` bounds the parser fuel needed
to re-parse `ser v`. -/
def jsize : Json → Nat
  | .null => 1
  | .bool _ => 1
  | .num _ => 1
  | .str _ => 1
  | .arr l => 1 + lsize l
  | .obj m => 1 + msize m

def lsize : List Json → Nat
  | [] => 0
  | v :: tl => 1 + jsize v + lsize tl

def msize : List (PyStr × Json) → Nat
  | [] => 0
  | (_, v) :: tl => 1 + jsize v + msize tl

end

/-- A continuation on which a serialized value can be re-parsed without the
number scanner running past its digits. -/
def SafeRest (rest : PyStr) : Prop :=
  ∀ c, rest.head? = some c → isDigitChar c = false

/-! # Helper lemmas -/

theorem isPre_iff (p s : PyStr) : isPre p s = true ↔ ∃ r, s = p ++ r := by
  induction p generalizing s with
  | nil => simp [isPre]
  | cons c p ih =>
    cases s with
    | nil => simp [isPre]
    | cons d s =>
      simp only [isPre, Bool.and_eq_true, decide_eq_true_eq, ih, List.cons_append,
        List.cons.injEq]
      constructor
      · rintro ⟨hc, r, hr⟩; exact ⟨r, hc.symm, hr⟩
      · rintro ⟨r, hc, hr⟩; exact ⟨hc.symm, r, hr⟩

theorem containsSub_iff (p s : PyStr) :
    containsSub p s = true ↔ ∃ a b, s = a ++ (p ++ b) := by
  induction s with
  | nil =>
    simp only [containsSub, isPre_iff]
    constructor
    · rintro ⟨r, hr⟩
      exact ⟨[], r, by simpa using hr⟩
    · rintro ⟨a, b, h⟩
      have h3 : a = [] ∧ p = [] ∧ b = [] := by simpa using h.symm
      exact ⟨b, by simp [h3.2.1, h3.2.2]⟩
  | cons c tl ih =>
    simp only [containsSub, Bool.or_eq_true, isPre_iff, ih]
    constructor
    · rintro (⟨r, hr⟩ | ⟨a, b, h⟩)
      · exact ⟨[], r, by simpa using hr⟩
      · exact ⟨c :: a, b, by simp [h]⟩
    · rintro ⟨a, b, h⟩
      cases a with
      | nil => exact Or.inl ⟨b, by simpa using h⟩
      | cons a0 a' =>
        rw [List.cons_append] at h
        injection h with h1 h2
        exact Or.inr ⟨a', b, h2⟩

theorem map_eq_append_split {α β : Type} (f : α → β) (s : List α) (a b : List β)
    (h : s.map f = a ++ b) :
    ∃ s1 s2, s = s1 ++ s2 ∧ s1.map f = a ∧ s2.map f = b := by
  induction s generalizing a with
  | nil =>
    have h2 : a = [] ∧ b = [] := by simpa using h.symm
    exact ⟨[], [], by simp, by simp [h2.1], by simp [h2.2]⟩
  | cons c tl ih =>
    cases a with
    | nil =>
      exact ⟨[], c :: tl, by simpa using h⟩
    | cons a0 a' =>
      simp only [List.map_cons, List.cons_append, List.cons.injEq] at h
      rcases ih a' h.2 with ⟨s1, s2, hs, h1, h2⟩
      exact ⟨c :: s1, s2, by simp [hs], by simp [h1, h.1], h2⟩

theorem takeWhile_frontier {p : Char → Bool} {a : PyStr} (c : Char) (r : PyStr)
    (ha : ∀ x ∈ a, p x = true) (hc : p c = false) :
    (a ++ c :: r).takeWhile p = a ∧ (a ++ c :: r).dropWhile p = c :: r := by
  induction a with
  | nil => simp [List.takeWhile_cons, List.dropWhile_cons, hc]
  | cons a0 a' ih =>
    have h0 := ha a0 (List.mem_cons_self a0 a')
    have ih' := ih (fun x hx => ha x (List.mem_cons_of_mem a0 hx))
    simp [List.takeWhile_cons, List.dropWhile_cons, h0, ih'.1, ih'.2]

theorem digitChar_toNat {k : Nat} (h : k < 10) : (digitChar k).toNat = 48 + k := by
  interval_cases k <;> decide

theorem isDigitChar_digitChar {k : Nat} (h : k < 10) :
    isDigitChar (digitChar k) = true := by
  interval_cases k <;> decide

theorem digitChar_ne_zero {k : Nat} (h : k < 10) (h0 : k ≠ 0) : digitChar k ≠ '0' := by
  interval_cases k
  · exact absurd rfl h0
  all_goals decide

theorem digitsToNat_append (xs : PyStr) (d : Char) :
    digitsToNat (xs ++ [d]) = 10 * digitsToNat xs + (d.toNat - 48) := by
  simp [digitsToNat, List.foldl_append]

theorem natDigitsAux_spec : ∀ f n, n < f →
    natDigitsAux f n ≠ [] ∧ (∀ c ∈ natDigitsAux f n, isDigitChar c = true) ∧
    digitsToNat (natDigitsAux f n) = n ∧
    (∀ c, (natDigitsAux f n).head? = some c → (n = 0 ∨ c ≠ '0')) := by
  intro f
  induction f with
  | zero => intro n h; omega
  | succ f ih =>
    intro n h
    by_cases h10 : n < 10
    · have he : natDigitsAux (f + 1) n = [digitChar n] := by
        simp [natDigitsAux, h10]
      refine ⟨by simp [he], ?_, ?_, ?_⟩
      · intro c hc
        rw [he] at hc
        simp at hc
        subst hc
        exact isDigitChar_digitChar h10
      · rw [he]
        have hd : digitsToNat [digitChar n] = (digitChar n).toNat - 48 := by
          simp [digitsToNat]
        rw [hd, digitChar_toNat h10]
        omega
      · intro c hc
        rw [he] at hc
        simp at hc
        subst hc
        rcases Nat.eq_zero_or_pos n with h0 | h0
        · exact Or.inl h0
        · exact Or.inr (digitChar_ne_zero h10 (by omega))
    · have hrec : natDigitsAux (f + 1) n =
          natDigitsAux f (n / 10) ++ [digitChar (n % 10)] := by
        simp [natDigitsAux, h10]
      have hdiv : n / 10 < f := by
        have h1 : n / 10 < n := Nat.div_lt_self (by omega) (by omega)
        omega
      obtain ⟨hne, hall, hval, hhead⟩ := ih (n / 10) hdiv
      refine ⟨by simp [hrec], ?_, ?_, ?_⟩
      · intro c hc
        rw [hrec] at hc
        rcases List.mem_append.mp hc with h1 | h1
        · exact hall c h1
        · simp at h1
          subst h1
          exact isDigitChar_digitChar (by omega)
      · rw [hrec, digitsToNat_append, hval, digitChar_toNat (by omega)]
        omega
      · intro c hc
        rw [hrec, List.head?_append] at hc
        cases hh : (natDigitsAux f (n / 10)).head? with
        | none => exact absurd (List.head?_eq_none_iff.mp hh) hne
        | some c0 =>
          rw [hh] at hc
          simp at hc
          subst hc
          rcases hhead c0 hh with h0 | h0
          · exfalso
            have h1 : 10 * (n / 10) + n % 10 = n := Nat.div_add_mod n 10
            omega
          · exact Or.inr h0

theorem natDigits_spec (n : Nat) :
    natDigits n ≠ [] ∧ (∀ c ∈ natDigits n, isDigitChar c = true) ∧
    digitsToNat (natDigits n) = n ∧
    (∀ c, (natDigits n).head? = some c → (n = 0 ∨ c ≠ '0')) :=
  natDigitsAux_spec (n + 1) n (Nat.lt_succ_self n)

theorem digit_char_props {d : Char} (h : isDigitChar d = true) :
    isWsChar d = false ∧ d ≠ ']' ∧ d ≠ '}' ∧ d ≠ 'n' ∧ d ≠ 't' ∧ d ≠ 'f' ∧
      d ≠ '"' ∧ d ≠ '[' ∧ d ≠ '{' ∧ d ≠ '-' := by
  have hsp : d ≠ ' ' := by rintro rfl; exact absurd h (by decide)
  have htb : d ≠ '\t' := by rintro rfl; exact absurd h (by decide)
  have hnl : d ≠ '\n' := by rintro rfl; exact absurd h (by decide)
  have hcr : d ≠ '\r' := by rintro rfl; exact absurd h (by decide)
  refine ⟨by simp [isWsChar, hsp, htb, hnl, hcr], ?_, ?_, ?_, ?_, ?_, ?_, ?_, ?_, ?_⟩
  all_goals rintro rfl; exact absurd h (by decide)

theorem takeWhile_all_append {p : Char → Bool} {a rest : PyStr}
    (ha : ∀ x ∈ a, p x = true) (hr : ∀ c, rest.head? = some c → p c = false) :
    (a ++ rest).takeWhile p = a ∧ (a ++ rest).dropWhile p = rest := by
  induction a with
  | nil =>
    simp only [List.nil_append]
    cases rest with
    | nil => simp
    | cons c r =>
      have h0 := hr c rfl
      simp [List.takeWhile_cons, List.dropWhile_cons, h0]
  | cons a0 a' ih =>
    have h0 := ha a0 (List.mem_cons_self a0 a')
    have ih' := ih (fun x hx => ha x (List.mem_cons_of_mem a0 hx))
    simp [List.takeWhile_cons, List.dropWhile_cons, h0, ih'.1, ih'.2]

theorem parseStrBody_quote (rest : PyStr) :
    parseStrBody ('"' :: rest) = .ok ([], rest) := by
  rw [parseStrBody.eq_def]
  simp

theorem parseStrBody_escape {e c : Char} (rest : PyStr) (hu : unescChar e = .ok c) :
    parseStrBody ('\\' :: e :: rest) =
      (parseStrBody rest).map (fun p => (c :: p.1, p.2)) := by
  rw [parseStrBody.eq_def]
  simp [hu]
  cases parseStrBody rest with
  | ok p => rfl
  | error q => rfl

theorem parseStrBody_other {c : Char} (rest : PyStr) (h1 : c ≠ '"') (h2 : c ≠ '\\') :
    parseStrBody (c :: rest) =
      (parseStrBody rest).map (fun p => (c :: p.1, p.2)) := by
  rw [parseStrBody.eq_def]
  simp [h1, h2]

theorem parseStrBody_escStr (s : PyStr) :
    ∀ rest, parseStrBody (escStr s ++ '"' :: rest) = .ok (s, rest) := by
  induction s with
  | nil =>
    intro rest
    have h : escStr [] ++ '"' :: rest = '"' :: rest := by simp [escStr]
    rw [h, parseStrBody_quote]
  | cons c s ih =>
    intro rest
    have hstep : escStr (c :: s) ++ '"' :: rest = escChar c ++ (escStr s ++ '"' :: rest) := by
      simp [escStr]
    rw [hstep]
    by_cases h1 : c = '"'
    · subst h1
      rw [show escChar '"' = ['\\', '"'] from rfl, List.cons_append, List.cons_append,
        List.nil_append, parseStrBody_escape _ (show unescChar '"' = .ok '"' from rfl),
        ih rest]
      rfl
    by_cases h2 : c = '\\'
    · subst h2
      rw [show escChar '\\' = ['\\', '\\'] from rfl, List.cons_append, List.cons_append,
        List.nil_append, parseStrBody_escape _ (show unescChar '\\' = .ok '\\' from rfl),
        ih rest]
      rfl
    by_cases h3 : c = '\n'
    · subst h3
      rw [show escChar '\n' = ['\\', 'n'] from rfl, List.cons_append, List.cons_append,
        List.nil_append, parseStrBody_escape _ (show unescChar 'n' = .ok '\n' from rfl),
        ih rest]
      rfl
    by_cases h4 : c = '\t'
    · subst h4
      rw [show escChar '\t' = ['\\', 't'] from rfl, List.cons_append, List.cons_append,
        List.nil_append, parseStrBody_escape _ (show unescChar 't' = .ok '\t' from rfl),
        ih rest]
      rfl
    by_cases h5 : c = '\r'
    · subst h5
      rw [show escChar '\r' = ['\\', 'r'] from rfl, List.cons_append, List.cons_append,
        List.nil_append, parseStrBody_escape _ (show unescChar 'r' = .ok '\r' from rfl),
        ih rest]
      rfl
    · have he : escChar c = [c] := by
        simp [escChar, h1, h2, h3, h4, h5]
      rw [he, List.cons_append, List.nil_append, parseStrBody_other _ h1 h2, ih rest]
      rfl

theorem parseNum_neg_digits {d : Char} (r : PyStr) (hd : isDigitChar d = true)
    (h0 : d ≠ '0') :
    parseNum ('-' :: d :: r) =
      .ok (.num (-(digitsToNat ((d :: r).takeWhile isDigitChar) : Int)),
           (d :: r).dropWhile isDigitChar) := by
  rw [parseNum.eq_def]
  simp [h0, hd]

theorem parseNum_pos_digits {d : Char} (r : PyStr) (hd : isDigitChar d = true)
    (h0 : d ≠ '0') (hm : d ≠ '-') :
    parseNum (d :: r) =
      .ok (.num (digitsToNat ((d :: r).takeWhile isDigitChar) : Int),
           (d :: r).dropWhile isDigitChar) := by
  rw [parseNum.eq_def]
  simp [h0, hd, hm]

theorem parseNum_zero (r : PyStr) : parseNum ('0' :: r) = .ok (.num 0, r) := by
  rw [parseNum.eq_def]
  simp

theorem parseNum_intChars (n : Int) (rest : PyStr) (hrest : SafeRest rest) :
    parseNum (intChars n ++ rest) = .ok (.num n, rest) := by
  by_cases hneg : n < 0
  · have hi : intChars n = '-' :: natDigits n.natAbs := by
      simp [intChars, hneg]
    obtain ⟨hne, hall, hval, hhead⟩ := natDigits_spec n.natAbs
    obtain ⟨d, ds, hd⟩ : ∃ d ds, natDigits n.natAbs = d :: ds :=
      List.exists_cons_of_ne_nil hne
    have hdd : isDigitChar d = true := hall d (by rw [hd]; exact List.mem_cons_self d ds)
    have hd0 : d ≠ '0' := by
      rcases hhead d (by rw [hd]; rfl) with h0 | h0
      · exfalso
        have h1 : n = 0 := Int.natAbs_eq_zero.mp h0
        omega
      · exact h0
    have hdm : d ≠ '-' := (digit_char_props hdd).2.2.2.2.2.2.2.2.2
    have hfront := @takeWhile_all_append isDigitChar (d :: ds) rest
      (by rw [← hd]; exact hall) (fun c hc => hrest c hc)
    rw [List.cons_append] at hfront
    rw [hi, hd, List.cons_append, List.cons_append,
      parseNum_neg_digits _ hdd hd0, hfront.1, hfront.2, ← hd, hval]
    have hv : -((n.natAbs : Nat) : Int) = n := by
      have h2 : ((n.natAbs : Nat) : Int) = -n := Int.ofNat_natAbs_of_nonpos (by omega)
      omega
    rw [hv]
  · by_cases hz : n = 0
    · subst hz
      have hi : intChars 0 = ['0'] := by decide
      rw [hi, List.cons_append, List.nil_append, parseNum_zero]
    · have hpos : 0 < n := by omega
      have hi : intChars n = natDigits n.toNat := by
        simp [intChars, hneg]
      obtain ⟨hne, hall, hval, hhead⟩ := natDigits_spec n.toNat
      obtain ⟨d, ds, hd⟩ : ∃ d ds, natDigits n.toNat = d :: ds :=
        List.exists_cons_of_ne_nil hne
      have hdd : isDigitChar d = true := hall d (by rw [hd]; exact List.mem_cons_self d ds)
      have hd0 : d ≠ '0' := by
        rcases hhead d (by rw [hd]; rfl) with h0 | h0
        · exfalso; omega
        · exact h0
      have hdm : d ≠ '-' := (digit_char_props hdd).2.2.2.2.2.2.2.2.2
      have hfront := @takeWhile_all_append isDigitChar (d :: ds) rest
        (by rw [← hd]; exact hall) (fun c hc => hrest c hc)
      rw [List.cons_append] at hfront
      rw [hi, hd, List.cons_append,
        parseNum_pos_digits _ hdd hd0 hdm, hfront.1, hfront.2, ← hd, hval]
      have hv : ((n.toNat : Nat) : Int) = n := Int.toNat_of_nonneg (by omega)
      rw [hv]

theorem digit_not_backtick {d : Char} (h : isDigitChar d = true) :
    d ≠ Char.ofNat 96 := by
  rintro rfl
  exact absurd h (by decide)

theorem ser_head (v : Json) : ∃ c0 s0, ser v = c0 :: s0 ∧ isWsChar c0 = false ∧
    c0 ≠ ']' ∧ c0 ≠ '}' ∧ c0 ≠ Char.ofNat 96 := by
  cases v with
  | null =>
    exact ⟨'n', "ull".toList, by simp [ser], by decide, by decide, by decide, by decide⟩
  | bool b =>
    cases b with
    | true =>
      exact ⟨'t', "rue".toList, by simp [ser], by decide, by decide, by decide, by decide⟩
    | false =>
      exact ⟨'f', "alse".toList, by simp [ser], by decide, by decide, by decide, by decide⟩
  | str s =>
    exact ⟨'"', escStr s ++ ['"'], by simp [ser], by decide, by decide, by decide, by decide⟩
  | arr l =>
    exact ⟨'[', serElems l ++ [']'], by simp [ser], by decide, by decide, by decide, by decide⟩
  | obj m =>
    exact ⟨'{', serMembers m ++ ['}'], by simp [ser], by decide, by decide, by decide, by decide⟩
  | num n =>
    by_cases hneg : n < 0
    · refine ⟨'-', natDigits n.natAbs, ?_, by decide, by decide, by decide, by decide⟩
      simp [ser, intChars, hneg]
    · obtain ⟨hne, hall, _, _⟩ := natDigits_spec n.toNat
      obtain ⟨d, ds, hd⟩ : ∃ d ds, natDigits n.toNat = d :: ds :=
        List.exists_cons_of_ne_nil hne
      have hdd : isDigitChar d = true := hall d (by rw [hd]; exact List.mem_cons_self d ds)
      have hp := digit_char_props hdd
      refine ⟨d, ds, ?_, hp.1, hp.2.1, hp.2.2.1, digit_not_backtick hdd⟩
      rw [show ser (.num n) = intChars n from by simp [ser]]
      simp [intChars, hneg, hd]

theorem skipWs_cons_not_ws {c : Char} (h : isWsChar c = false) (r : PyStr) :
    skipWs (c :: r) = c :: r := by
  simp [skipWs, List.dropWhile_cons, h]

theorem skipWs_space (r : PyStr) : skipWs (' ' :: r) = skipWs r := by
  simp [skipWs, List.dropWhile_cons, isWsChar]

theorem skipWs_ser (v : Json) (X : PyStr) : skipWs (ser v ++ X) = ser v ++ X := by
  obtain ⟨c0, s0, hser, hws, _, _, _⟩ := ser_head v
  rw [hser, List.cons_append, skipWs_cons_not_ws hws]

theorem preprocess_ser (v : Json) : preprocess (ser v) = ser v := by
  have hfence : isPre fenceTag (ser v) = false := by
    obtain ⟨c0, s0, hser, _, _, _, hbt⟩ := ser_head v
    have hft : fenceTag = Char.ofNat 96 :: "``json".toList := by decide
    have hbt' : Char.ofNat 96 ≠ c0 := fun h => hbt h.symm
    rw [hser, hft]
    simp [isPre, hbt']
  unfold preprocess
  rw [if_neg (by rw [hfence]; exact Bool.false_ne_true)]

theorem jsize_pos (v : Json) : 1 ≤ jsize v := by
  cases v <;> simp [jsize]

theorem lsize_cons (v : Json) (tl : List Json) :
    lsize (v :: tl) = 1 + jsize v + lsize tl := by
  simp [lsize]

theorem msize_cons (k : PyStr) (v : Json) (tl : List (PyStr × Json)) :
    msize ((k, v) :: tl) = 1 + jsize v + msize tl := by
  simp [msize]

theorem parseVal_null (f : Nat) (r : PyStr) :
    parseVal (f + 1) ('n' :: ("ull".toList ++ r)) = .ok (.null, r) := by
  rw [parseVal.eq_def]
  have h2 : ("ull".toList ++ r).drop 3 = r := List.drop_left "ull".toList r
  simp [h2, isPre]

theorem parseVal_true (f : Nat) (r : PyStr) :
    parseVal (f + 1) ('t' :: ("rue".toList ++ r)) = .ok (.bool true, r) := by
  rw [parseVal.eq_def]
  have h2 : ("rue".toList ++ r).drop 3 = r := List.drop_left "rue".toList r
  simp [h2, isPre]

theorem parseVal_false (f : Nat) (r : PyStr) :
    parseVal (f + 1) ('f' :: ("alse".toList ++ r)) = .ok (.bool false, r) := by
  rw [parseVal.eq_def]
  have h2 : ("alse".toList ++ r).drop 4 = r := List.drop_left "alse".toList r
  simp [h2, isPre]

theorem parseVal_quote (f : Nat) (r : PyStr) :
    parseVal (f + 1) ('"' :: r) =
      (parseStrBody r).map (fun p => (.str p.1, p.2)) := by
  rw [parseVal.eq_def]
  simp

theorem parseVal_open_bracket (f : Nat) (r : PyStr) :
    parseVal (f + 1) ('[' :: r) =
      (if (skipWs r).head? = some ']' then .ok (.arr [], (skipWs r).tail)
       else (parseElems f (skipWs r)).map (fun p => (.arr p.1, p.2))) := by
  rw [parseVal.eq_def]
  simp

theorem parseVal_open_brace (f : Nat) (r : PyStr) :
    parseVal (f + 1) ('{' :: r) =
      (if (skipWs r).head? = some '}' then .ok (.obj [], (skipWs r).tail)
       else (parseMembers f (skipWs r)).map (fun p => (.obj p.1, p.2))) := by
  rw [parseVal.eq_def]
  simp

theorem parseVal_dash (f : Nat) (r : PyStr) :
    parseVal (f + 1) ('-' :: r) = parseNum ('-' :: r) := by
  rw [parseVal.eq_def]
  simp [parseNum]

theorem parseVal_digit {d : Char} (f : Nat) (r : PyStr) (hd : isDigitChar d = true) :
    parseVal (f + 1) (d :: r) = parseNum (d :: r) := by
  have hp := digit_char_props hd
  rw [parseVal.eq_def]
  simp [hp.2.2.2.1, hp.2.2.2.2.1, hp.2.2.2.2.2.1, hp.2.2.2.2.2.2.1,
    hp.2.2.2.2.2.2.2.1, hp.2.2.2.2.2.2.2.2.1, hd]

theorem parseVal_intChars (k : Int) (f : Nat) (rest : PyStr) (hrest : SafeRest rest) :
    parseVal (f + 1) (intChars k ++ rest) = .ok (.num k, rest) := by
  by_cases hneg : k < 0
  · have hi : intChars k = '-' :: natDigits k.natAbs := by simp [intChars, hneg]
    rw [hi, List.cons_append, parseVal_dash, ← List.cons_append, ← hi]
    exact parseNum_intChars k rest hrest
  · by_cases hz : k = 0
    · subst hz
      have hi : intChars 0 = ['0'] := by decide
      rw [hi, List.cons_append, List.nil_append, parseVal_digit f rest (by decide),
        parseNum_zero]
    · have hi : intChars k = natDigits k.toNat := by simp [intChars, hneg]
      obtain ⟨hne, hall, _, _⟩ := natDigits_spec k.toNat
      obtain ⟨d, ds, hd⟩ : ∃ d ds, natDigits k.toNat = d :: ds :=
        List.exists_cons_of_ne_nil hne
      have hdd : isDigitChar d = true := hall d (by rw [hd]; exact List.mem_cons_self d ds)
      rw [hi, hd, List.cons_append, parseVal_digit f _ hdd, ← List.cons_append, ← hd,
        ← hi]
      exact parseNum_intChars k rest hrest

theorem safeRest_elemsTail (tl : List Json) (rest : PyStr) :
    SafeRest (serElemsTail tl ++ ']' :: rest) := by
  intro c hc
  cases tl with
  | nil =>
    simp [serElemsTail] at hc
    subst hc
    decide
  | cons w tl2 =>
    simp [serElemsTail] at hc
    subst hc
    decide

theorem safeRest_membersTail (tl : List (PyStr × Json)) (rest : PyStr) :
    SafeRest (serMembersTail tl ++ '}' :: rest) := by
  intro c hc
  cases tl with
  | nil =>
    simp [serMembersTail] at hc
    subst hc
    decide
  | cons kv tl2 =>
    obtain ⟨k2, w⟩ := kv
    simp [serMembersTail] at hc
    subst hc
    decide

theorem parseElems_succ (f : Nat) (cs : PyStr) :
    parseElems (f + 1) cs = (do
      let p ← parseVal f cs
      match skipWs p.2 with
      | ',' :: r2 => (parseElems f (skipWs r2)).map (fun q => (p.1 :: q.1, q.2))
      | ']' :: r2 => .ok ([p.1], r2)
      | _ => .error "Expecting delimiter".toList) := by
  rw [parseElems.eq_def]

theorem parseMembers_succ_quote (f : Nat) (r0 : PyStr) :
    parseMembers (f + 1) ('"' :: r0) = (do
      let kp ← parseStrBody r0
      match skipWs kp.2 with
      | ':' :: r2 => do
        let vp ← parseVal f (skipWs r2)
        (match skipWs vp.2 with
         | ',' :: r4 =>
             (parseMembers f (skipWs r4)).map (fun q => ((kp.1, vp.1) :: q.1, q.2))
         | '}' :: r4 => .ok ([(kp.1, vp.1)], r4)
         | _ => .error "Expecting delimiter".toList)
      | _ => .error "Expecting colon delimiter".toList) := by
  rw [parseMembers.eq_def]
  rfl

theorem parse_ser_all : ∀ n,
    (∀ v : Json, jsize v ≤ n → ∀ f rest, 2 * jsize v ≤ f → SafeRest rest →
      parseVal f (ser v ++ rest) = .ok (v, rest)) ∧
    (∀ l : List Json, lsize l ≤ n → l ≠ [] → ∀ f rest, 2 * lsize l + 1 ≤ f →
      parseElems f (serElems l ++ ']' :: rest) = .ok (l, rest)) ∧
    (∀ m : List (PyStr × Json), msize m ≤ n → m ≠ [] → ∀ f rest,
      2 * msize m + 1 ≤ f →
      parseMembers f (serMembers m ++ '}' :: rest) = .ok (m, rest)) := by
  intro n
  induction n with
  | zero =>
    refine ⟨?_, ?_, ?_⟩
    · intro v hv
      exact absurd hv (by have := jsize_pos v; omega)
    · intro l hl hne
      cases l with
      | nil => exact absurd rfl hne
      | cons v tl =>
        rw [lsize_cons] at hl
        omega
    · intro m hm hne
      cases m with
      | nil => exact absurd rfl hne
      | cons kv tl =>
        obtain ⟨k, v⟩ := kv
        rw [msize_cons] at hm
        omega
  | succ n ih =>
    obtain ⟨ihv, ihl, ihm⟩ := ih
    refine ⟨?_, ?_, ?_⟩
    · intro v hv f rest hf hrest
      have hj := jsize_pos v
      obtain ⟨f', rfl⟩ : ∃ f', f = f' + 1 := ⟨f - 1, by omega⟩
      cases v with
      | null =>
        rw [show ser .null = "null".toList from by simp [ser],
          show ("null".toList : PyStr) ++ rest = 'n' :: ("ull".toList ++ rest) from rfl]
        exact parseVal_null f' rest
      | bool b =>
        cases b with
        | true =>
          rw [show ser (.bool true) = "true".toList from by simp [ser],
            show ("true".toList : PyStr) ++ rest = 't' :: ("rue".toList ++ rest) from rfl]
          exact parseVal_true f' rest
        | false =>
          rw [show ser (.bool false) = "false".toList from by simp [ser],
            show ("false".toList : PyStr) ++ rest = 'f' :: ("alse".toList ++ rest) from rfl]
          exact parseVal_false f' rest
      | num k =>
        rw [show ser (.num k) = intChars k from by simp [ser]]
        exact parseVal_intChars k f' rest hrest
      | str s =>
        rw [show ser (.str s) = '"' :: (escStr s ++ ['"']) from by simp [ser]]
        rw [List.cons_append, List.append_assoc, List.cons_append, List.nil_append,
          parseVal_quote, parseStrBody_escStr s rest]
        rfl
      | arr l =>
        rw [show ser (.arr l) = '[' :: (serElems l ++ [']']) from by simp [ser]]
        rw [List.cons_append, List.append_assoc, List.cons_append, List.nil_append,
          parseVal_open_bracket]
        cases l with
        | nil =>
          rw [show serElems [] = [] from by simp [serElems], List.nil_append,
            skipWs_cons_not_ws (by decide)]
          simp
        | cons v0 tl =>
          rw [show serElems (v0 :: tl) = ser v0 ++ serElemsTail tl from by simp [serElems],
            List.append_assoc, skipWs_ser]
          obtain ⟨c0, s0, hser, _, hnb, _, _⟩ := ser_head v0
          rw [if_neg (by rw [hser, List.cons_append]; simp [hnb])]
          rw [← List.append_assoc,
            ← show serElems (v0 :: tl) = ser v0 ++ serElemsTail tl from by simp [serElems]]
          rw [jsize] at hv hf
          rw [ihl (v0 :: tl) (by omega) (by simp) f' rest (by omega)]
          rfl
      | obj m =>
        rw [show ser (.obj m) = '{' :: (serMembers m ++ ['}']) from by simp [ser]]
        rw [List.cons_append, List.append_assoc, List.cons_append, List.nil_append,
          parseVal_open_brace]
        cases m with
        | nil =>
          rw [show serMembers [] = [] from by simp [serMembers], List.nil_append,
            skipWs_cons_not_ws (by decide)]
          simp
        | cons kv tl =>
          obtain ⟨k, v0⟩ := kv
          have hshape2 : serMembers ((k, v0) :: tl) ++ '}' :: rest =
              '"' :: ((escStr k ++ ['"', ':', ' '] ++ ser v0 ++ serMembersTail tl)
                ++ '}' :: rest) := by
            simp [serMembers]
          rw [hshape2, skipWs_cons_not_ws (by decide)]
          rw [if_neg (by simp)]
          rw [← hshape2]
          rw [jsize] at hv hf
          rw [ihm ((k, v0) :: tl) (by omega) (by simp) f' rest (by omega)]
          rfl
    · intro l hl hne f rest hf
      cases l with
      | nil => exact absurd rfl hne
      | cons v0 tl =>
        rw [lsize_cons] at hl hf
        have hj := jsize_pos v0
        obtain ⟨f', rfl⟩ : ∃ f', f = f' + 1 := ⟨f - 1, by omega⟩
        rw [parseElems_succ]
        rw [show serElems (v0 :: tl) = ser v0 ++ serElemsTail tl from by simp [serElems],
          List.append_assoc,
          ihv v0 (by omega) f' (serElemsTail tl ++ ']' :: rest) (by omega)
            (safeRest_elemsTail tl rest)]
        show (match skipWs (serElemsTail tl ++ ']' :: rest) with
          | ',' :: r2 => (parseElems f' (skipWs r2)).map (fun q : List Json × PyStr => (v0 :: q.1, q.2))
          | ']' :: r2 => .ok ([v0], r2)
          | _ => .error "Expecting delimiter".toList) = .ok (v0 :: tl, rest)
        cases tl with
        | nil =>
          rw [show serElemsTail ([] : List Json) = [] from by simp [serElemsTail],
            List.nil_append, skipWs_cons_not_ws (by decide)]
          rfl
        | cons w tl2 =>
          rw [show serElemsTail (w :: tl2) = ',' :: ' ' :: (ser w ++ serElemsTail tl2)
            from by simp [serElemsTail]]
          rw [List.cons_append, List.cons_append, skipWs_cons_not_ws (by decide)]
          show (parseElems f' (skipWs (' ' :: (ser w ++ serElemsTail tl2 ++ ']' :: rest)))).map
              (fun q => (v0 :: q.1, q.2)) = .ok (v0 :: w :: tl2, rest)
          rw [skipWs_space, List.append_assoc, skipWs_ser, ← List.append_assoc,
            ← show serElems (w :: tl2) = ser w ++ serElemsTail tl2 from by simp [serElems]]
          rw [lsize_cons] at hl hf
          have hjw := jsize_pos w
          rw [ihl (w :: tl2) (by rw [lsize_cons]; omega) (by simp) f' rest
            (by rw [lsize_cons]; omega)]
          rfl
    · intro m hm hne f rest hf
      cases m with
      | nil => exact absurd rfl hne
      | cons kv tl =>
        obtain ⟨k, v0⟩ := kv
        rw [msize_cons] at hm hf
        have hj := jsize_pos v0
        obtain ⟨f', rfl⟩ : ∃ f', f = f' + 1 := ⟨f - 1, by omega⟩
        rw [show serMembers ((k, v0) :: tl) =
            '"' :: (escStr k ++ ['"', ':', ' ']) ++ ser v0 ++ serMembersTail tl
          from by simp [serMembers]]
        have hshape : ('"' :: (escStr k ++ ['"', ':', ' ']) ++ ser v0 ++ serMembersTail tl)
            ++ '}' :: rest =
            '"' :: (escStr k ++ '"' :: (':' :: ' ' ::
              (ser v0 ++ (serMembersTail tl ++ '}' :: rest)))) := by
          simp
        rw [hshape, parseMembers_succ_quote, parseStrBody_escStr k]
        show (match skipWs (':' :: ' ' :: (ser v0 ++ (serMembersTail tl ++ '}' :: rest))) with
          | ':' :: r2 => do
            let vp ← parseVal f' (skipWs r2)
            (match skipWs vp.2 with
             | ',' :: r4 =>
                 (parseMembers f' (skipWs r4)).map (fun q : List (PyStr × Json) × PyStr => ((k, vp.1) :: q.1, q.2))
             | '}' :: r4 => .ok ([(k, vp.1)], r4)
             | _ => .error "Expecting delimiter".toList)
          | _ => .error "Expecting colon delimiter".toList) = .ok ((k, v0) :: tl, rest)
        rw [skipWs_cons_not_ws (by decide)]
        show (do
          let vp ← parseVal f' (skipWs (' ' :: (ser v0 ++ (serMembersTail tl ++ '}' :: rest))))
          (match skipWs vp.2 with
           | ',' :: r4 =>
               (parseMembers f' (skipWs r4)).map (fun q : List (PyStr × Json) × PyStr => ((k, vp.1) :: q.1, q.2))
           | '}' :: r4 => .ok ([(k, vp.1)], r4)
           | _ => .error "Expecting delimiter".toList)) = .ok ((k, v0) :: tl, rest)
        rw [skipWs_space, skipWs_ser,
          ihv v0 (by omega) f' (serMembersTail tl ++ '}' :: rest) (by omega)
            (safeRest_membersTail tl rest)]
        show (match skipWs (serMembersTail tl ++ '}' :: rest) with
          | ',' :: r4 => (parseMembers f' (skipWs r4)).map (fun q : List (PyStr × Json) × PyStr => ((k, v0) :: q.1, q.2))
          | '}' :: r4 => .ok ([(k, v0)], r4)
          | _ => .error "Expecting delimiter".toList) = .ok ((k, v0) :: tl, rest)
        cases tl with
        | nil =>
          rw [show serMembersTail ([] : List (PyStr × Json)) = [] from by simp [serMembersTail],
            List.nil_append, skipWs_cons_not_ws (by decide)]
          rfl
        | cons kv2 tl2 =>
          obtain ⟨k2, w⟩ := kv2
          rw [show serMembersTail ((k2, w) :: tl2) =
              ',' :: ' ' :: ('"' :: (escStr k2 ++ ['"', ':', ' ']) ++ ser w ++ serMembersTail tl2)
            from by simp [serMembersTail]]
          rw [List.cons_append, List.cons_append, skipWs_cons_not_ws (by decide)]
          show (parseMembers f' (skipWs (' ' ::
              (('"' :: (escStr k2 ++ ['"', ':', ' ']) ++ ser w ++ serMembersTail tl2)
                ++ '}' :: rest)))).map (fun q => ((k, v0) :: q.1, q.2)) =
            .ok ((k, v0) :: (k2, w) :: tl2, rest)
          have hsh : ('"' :: (escStr k2 ++ ['"', ':', ' ']) ++ ser w ++ serMembersTail tl2)
                ++ '}' :: rest =
              '"' :: ((escStr k2 ++ ['"', ':', ' '] ++ ser w ++ serMembersTail tl2)
                ++ '}' :: rest) := by simp
          rw [skipWs_space, hsh, skipWs_cons_not_ws (by decide), ← hsh,
            ← show serMembers ((k2, w) :: tl2) =
              '"' :: (escStr k2 ++ ['"', ':', ' ']) ++ ser w ++ serMembersTail tl2
            from by simp [serMembers]]
          rw [msize_cons] at hm hf
          have hjw := jsize_pos w
          rw [ihm ((k2, w) :: tl2) (by rw [msize_cons]; omega) (by simp) f' rest
            (by rw [msize_cons]; omega)]
          rfl

theorem serElemsTail_len (w : Json) (tl2 : List Json) :
    (serElemsTail (w :: tl2)).length = 2 + (serElems (w :: tl2)).length := by
  simp [serElemsTail, serElems]
  omega

theorem serMembersTail_len (k2 : PyStr) (w : Json) (tl2 : List (PyStr × Json)) :
    (serMembersTail ((k2, w) :: tl2)).length =
      2 + (serMembers ((k2, w) :: tl2)).length := by
  simp [serMembersTail, serMembers]
  omega

theorem size_le_serLen : ∀ n,
    (∀ v : Json, jsize v ≤ n → jsize v ≤ (ser v).length) ∧
    (∀ l : List Json, lsize l ≤ n → lsize l ≤ (serElems l).length + 1) ∧
    (∀ m : List (PyStr × Json), msize m ≤ n → msize m ≤ (serMembers m).length + 1) := by
  intro n
  induction n with
  | zero =>
    refine ⟨?_, ?_, ?_⟩
    · intro v hv
      exact absurd hv (by have := jsize_pos v; omega)
    · intro l hl
      cases l with
      | nil => simp [lsize, serElems]
      | cons v tl => rw [lsize_cons] at hl; exact absurd hl (by have := jsize_pos v; omega)
    · intro m hm
      cases m with
      | nil => simp [msize, serMembers]
      | cons kv tl =>
        obtain ⟨k, v⟩ := kv
        rw [msize_cons] at hm
        exact absurd hm (by have := jsize_pos v; omega)
  | succ n ih =>
    obtain ⟨ihv, ihl, ihm⟩ := ih
    refine ⟨?_, ?_, ?_⟩
    · intro v hv
      cases v with
      | null => simp [jsize, ser]
      | bool b => cases b <;> simp [jsize, ser]
      | num k =>
        have h1 : intChars k ≠ [] := by
          by_cases hneg : k < 0
          · simp [intChars, hneg]
          · simp only [intChars, if_neg hneg]
            exact (natDigits_spec k.toNat).1
        have h2 : 1 ≤ (intChars k).length := by
          cases h : intChars k with
          | nil => exact absurd h h1
          | cons c r => simp
        have h3 : ser (.num k) = intChars k := by simp [ser]
        rw [show jsize (.num k) = 1 from by simp [jsize], h3]
        exact h2
      | str s =>
        have : ser (.str s) = '"' :: (escStr s ++ ['"']) := by simp [ser]
        rw [show jsize (.str s) = 1 from by simp [jsize], this]
        simp
      | arr l =>
        have hle : lsize l ≤ n := by
          rw [show jsize (.arr l) = 1 + lsize l from by simp [jsize]] at hv
          omega
        have h1 := ihl l hle
        rw [show jsize (.arr l) = 1 + lsize l from by simp [jsize],
          show ser (.arr l) = '[' :: (serElems l ++ [']']) from by simp [ser]]
        simp only [List.length_cons, List.length_append, List.length_nil]
        omega
      | obj m =>
        have hle : msize m ≤ n := by
          rw [show jsize (.obj m) = 1 + msize m from by simp [jsize]] at hv
          omega
        have h1 := ihm m hle
        rw [show jsize (.obj m) = 1 + msize m from by simp [jsize],
          show ser (.obj m) = '{' :: (serMembers m ++ ['}']) from by simp [ser]]
        simp only [List.length_cons, List.length_append, List.length_nil]
        omega
    · intro l hl
      cases l with
      | nil => simp [lsize, serElems]
      | cons v tl =>
        rw [lsize_cons] at hl
        have hjv := jsize_pos v
        have h1 := ihv v (by omega)
        have hse : (serElems (v :: tl)).length = (ser v).length + (serElemsTail tl).length := by
          simp [serElems]
        rw [lsize_cons, hse]
        cases tl with
        | nil =>
          simp [serElemsTail, lsize]
          omega
        | cons w tl2 =>
          have h2 := ihl (w :: tl2) (by rw [lsize_cons] at hl ⊢; omega)
          rw [serElemsTail_len w tl2]
          omega
    · intro m hm
      cases m with
      | nil => simp [msize, serMembers]
      | cons kv tl =>
        obtain ⟨k, v⟩ := kv
        rw [msize_cons] at hm
        have hjv := jsize_pos v
        have h1 := ihv v (by omega)
        have hsm : (serMembers ((k, v) :: tl)).length =
            4 + (escStr k).length + (ser v).length + (serMembersTail tl).length := by
          simp [serMembers]
          omega
        rw [msize_cons, hsm]
        cases tl with
        | nil =>
          simp [serMembersTail, msize]
          omega
        | cons kv2 tl2 =>
          obtain ⟨k2, w⟩ := kv2
          have h2 := ihm ((k2, w) :: tl2) (by rw [msize_cons] at hm ⊢; omega)
          rw [serMembersTail_len k2 w tl2]
          omega

theorem parseWhole_ser (v : Json) : parseWhole (ser v) = .ok v := by
  have hsz := (size_le_serLen (jsize v)).1 v le_rfl
  have hskip : skipWs (ser v) = ser v := by
    have h := skipWs_ser v []
    simpa using h
  have hrt := (parse_ser_all (jsize v)).1 v le_rfl (2 * (ser v).length + 2) []
    (by omega) (by intro c hc; simp at hc)
  rw [List.append_nil] at hrt
  unfold parseWhole
  rw [hskip, hrt]
  rfl

theorem spanOf_eq_some_iff (t u : PyStr) :
    spanOf t = some u ↔ IsGreedySpan t u := by
  constructor
  · intro h
    unfold spanOf at h
    by_cases hlen : (t.reverse.takeWhile (fun c => c ≠ ']')).length + 2 ≤
        (t.dropWhile (fun c => c ≠ '[')).length
    case neg => rw [if_neg hlen] at h; exact absurd h (by simp)
    rw [if_pos hlen] at h
    have hu : u = (t.dropWhile (fun c => c ≠ '[')).take
        ((t.dropWhile (fun c => c ≠ '[')).length -
          (t.reverse.takeWhile (fun c => c ≠ ']')).length) := by
      injection h with h'
      exact h'.symm
    set a := t.takeWhile (fun c => c ≠ '[') with haDef
    set d := t.dropWhile (fun c => c ≠ '[') with hdDef
    set bR := t.reverse.takeWhile (fun c => c ≠ ']') with hbDef
    set dR := t.reverse.dropWhile (fun c => c ≠ ']') with hdRDef
    have hsplit : a ++ d = t := List.takeWhile_append_dropWhile _ _
    have hRsplit : bR ++ dR = t.reverse := List.takeWhile_append_dropWhile _ _
    obtain ⟨d0, d', hd⟩ : ∃ d0 d', d = d0 :: d' := by
      cases hd : d with
      | nil => rw [hd] at hlen; simp at hlen
      | cons x xs => exact ⟨x, xs, rfl⟩
    have hd0 : d0 = '[' := by
      have h1 := List.head?_dropWhile_not (fun c => c ≠ '[') t
      rw [← hdDef, hd] at h1
      simpa using h1
    obtain ⟨e0, dR', hdR⟩ : ∃ e0 dR', dR = e0 :: dR' := by
      cases hdR : dR with
      | nil =>
        exfalso
        have hbl : bR.length = t.length := by
          have h2 := congrArg List.length hRsplit
          rw [hdR] at h2
          simpa using h2
        have hdl : d.length ≤ t.length := by
          have h2 := congrArg List.length hsplit
          simp only [List.length_append] at h2
          omega
        omega
      | cons x xs => exact ⟨x, xs, rfl⟩
    have he0 : e0 = ']' := by
      have h1 := List.head?_dropWhile_not (fun c => c ≠ ']') t.reverse
      rw [← hdRDef, hdR] at h1
      simpa using h1
    have hdvu : u ++ d.drop (d.length - bR.length) = d := by
      rw [hu]; exact List.take_append_drop _ _
    have hvlen : (d.drop (d.length - bR.length)).length = bR.length := by
      simp only [List.length_drop]
      omega
    have ht2 : dR.reverse ++ bR.reverse = t := by
      have h2 := congrArg List.reverse hRsplit
      simpa using h2
    have ht3 : (a ++ u) ++ d.drop (d.length - bR.length) = dR.reverse ++ bR.reverse := by
      rw [List.append_assoc, hdvu, hsplit, ht2]
    have hinj := List.append_inj' ht3 (by simp [hvlen])
    have hul : u.length = d.length - bR.length := by
      rw [hu, List.length_take]
      omega
    obtain ⟨k, hk⟩ : ∃ k, d.length - bR.length = k + 1 :=
      ⟨d.length - bR.length - 1, by omega⟩
    have hu' : u = '[' :: d'.take k := by
      rw [hu, hk, hd, hd0, List.take_succ_cons]
    have hu'ne : d'.take k ≠ [] := by
      intro h0
      rw [hu', h0] at hul
      simp at hul
      omega
    have hau : a ++ u = dR.reverse := hinj.1
    have hrev : u.reverse ++ a.reverse = ']' :: dR' := by
      have h2 := congrArg List.reverse hau
      rw [hdR, he0] at h2
      simpa using h2
    obtain ⟨c0, w, hw⟩ : ∃ c0 w, (d'.take k).reverse = c0 :: w := by
      cases hw : (d'.take k).reverse with
      | nil =>
        exact absurd (by simpa using congrArg List.reverse hw) hu'ne
      | cons x xs => exact ⟨x, xs, rfl⟩
    have hc0 : c0 = ']' := by
      rw [hu'] at hrev
      simp only [List.reverse_cons, hw, List.cons_append, List.append_assoc] at hrev
      simpa using congrArg List.head? hrev
    have htake : d'.take k = w.reverse ++ [c0] := by
      have h2 := congrArg List.reverse hw
      simpa using h2
    have hufin : u = '[' :: (w.reverse ++ [']']) := by
      rw [hu', htake, hc0]
    refine ⟨a, w.reverse, bR.reverse, ?_, hufin, ?_, ?_⟩
    · rw [← hsplit, ← hdvu, hinj.2]
      simp [List.append_assoc]
    · intro hmem
      have h2 := List.mem_takeWhile_imp (haDef ▸ hmem)
      simp at h2
    · intro hmem
      have h2 := List.mem_takeWhile_imp (hbDef ▸ (List.mem_reverse.mp hmem))
      simp at h2
  · rintro ⟨a, mid, b, ht, hus, hA, hB⟩
    have hpa : ∀ x ∈ a, (fun c => decide (c ≠ '[')) x = true := by
      intro x hx
      simp only [decide_eq_true_eq]
      intro h0
      exact hA (h0 ▸ hx)
    have hpb : ∀ x ∈ b.reverse, (fun c => decide (c ≠ ']')) x = true := by
      intro x hx
      simp only [decide_eq_true_eq]
      intro h0
      exact hB (h0 ▸ List.mem_reverse.mp hx)
    have ht1 : t = a ++ '[' :: (mid ++ [']'] ++ b) := by
      rw [ht, hus]
      simp [List.append_assoc]
    have hfront := takeWhile_frontier (p := fun c => decide (c ≠ '[')) '['
      (mid ++ [']'] ++ b) hpa (by simp)
    have hd : t.dropWhile (fun c => c ≠ '[') = '[' :: (mid ++ [']'] ++ b) := by
      rw [ht1]; exact hfront.2
    have htR : t.reverse = b.reverse ++ ']' :: (mid.reverse ++ '[' :: a.reverse) := by
      rw [ht, hus]
      simp
    have hfrontR := takeWhile_frontier (p := fun c => decide (c ≠ ']')) ']'
      (mid.reverse ++ '[' :: a.reverse) hpb (by simp)
    have hbR : t.reverse.takeWhile (fun c => c ≠ ']') = b.reverse := by
      rw [htR]; exact hfrontR.1
    have hdlen : (t.dropWhile (fun c => c ≠ '[')).length = mid.length + 2 + b.length := by
      rw [hd]
      simp only [List.length_cons, List.length_append, List.length_nil]
      omega
    have hblen : (t.reverse.takeWhile (fun c => c ≠ ']')).length = b.length := by
      rw [hbR]; simp
    unfold spanOf
    rw [if_pos (by omega)]
    congr 1
    rw [hdlen, hblen, hd]
    have hassoc : ('[' :: (mid ++ [']'] ++ b)) = ('[' :: (mid ++ [']'])) ++ b := by
      simp
    have hlen2 : mid.length + 2 + b.length - b.length = ('[' :: (mid ++ [']'])).length := by
      simp only [List.length_cons, List.length_append, List.length_nil]
      omega
    rw [hassoc, hlen2, List.take_left]
    exact hus.symm


theorem refineLoop_ok (expertM reviewerM : PyStr → PyStr) (eT rT : PyStr)
    (extra : Bindings) (raw : PyStr) (policy : PyStr → Bool)
    (hE : (render eT (("raw_text".toList, raw) :: extra)).isOk = true)
    (hR : ∀ s, (render rT (("extracted_output".toList, s) :: extra)).isOk = true) :
    ∀ (fuel i : Nat) (cur : PyStr) (log : List IterationRecord),
      ∃ r, refineLoop expertM reviewerM eT rT extra raw policy
          fuel i cur log = .ok r := by
  intro fuel
  induction fuel with
  | zero =>
    intro i cur log
    exact ⟨⟨cur, log.reverse, .exhausted⟩, rfl⟩
  | succ f ih =>
    intro i cur log
    obtain ⟨ep, hep⟩ : ∃ ep, render eT (("raw_text".toList, raw) :: extra) = .ok ep := by
      cases h : render eT (("raw_text".toList, raw) :: extra) with
      | ok x => exact ⟨x, rfl⟩
      | error e => rw [h] at hE; exact absurd hE (by simp [Except.isOk, Except.toBool])
    obtain ⟨rp, hrp⟩ : ∃ rp, render rT
        (("extracted_output".toList, extractedText (expertM ep)) :: extra) = .ok rp := by
      cases h : render rT
          (("extracted_output".toList, extractedText (expertM ep)) :: extra) with
      | ok x => exact ⟨x, rfl⟩
      | error e =>
        have h2 := hR (extractedText (expertM ep))
        rw [h] at h2
        exact absurd h2 (by simp [Except.isOk, Except.toBool])
    by_cases hacc : policy (reviewerM rp) = true
    · refine ⟨⟨extractedText (expertM ep),
        (⟨i, ep, expertM ep, rp, reviewerM rp, policy (reviewerM rp)⟩ :: log).reverse,
        .accepted⟩, ?_⟩
      simp only [refineLoop, hep, hrp]
      rw [if_pos hacc]
    · obtain ⟨r, hr⟩ := ih (i + 1) (extractedText (expertM ep))
        (⟨i, ep, expertM ep, rp, reviewerM rp, policy (reviewerM rp)⟩ :: log)
      refine ⟨r, ?_⟩
      simp only [refineLoop, hep, hrp]
      rw [if_neg hacc]
      exact hr

set_option maxRecDepth 40000 in
theorem forecastHandlerFirst_ok_none (expertM reviewerM : PyStr → PyStr)
    (i : BookingInput) : forecastHandlerFirst expertM reviewerM i = .ok none := by
  obtain ⟨r, hr⟩ := refineLoop_ok expertM reviewerM forecastExpertTemplate
    forecastReviewerTemplate
    (forecastExtra i (i.start_date ++ " to ".toList ++ i.end_date)) []
    forecastAccept rfl (fun s => rfl) (3 : Int).toNat 1 [] []
  have hr2 : refine expertM reviewerM forecastExpertTemplate
      forecastReviewerTemplate
      (forecastExtra i (i.start_date ++ " to ".toList ++ i.end_date)) []
      forecastAccept 3 = .ok r := hr
  simp only [forecastHandlerFirst, hr2]

theorem pricingFinalize_raises_of_extract_error (hn hl dr t e : PyStr)
    (h : extractStructured t = .error e) :
    pricingFinalize hn hl dr t = .error pydanticValidationError := by
  have hc : competitorsOf t = .arr [invalidJsonDiag e] := by
    unfold competitorsOf
    rw [h]
  unfold pricingFinalize mkHotelPricingResponse
  rw [hc]
  simp [show validCompetitors (Json.arr [invalidJsonDiag e]) = false from rfl]

/-- C9: the forecast source registers two handler definitions for the same
`POST /forecast` route, and the first handler runs the refinement loop but
ends without a `return` statement, so for every model pair and input it
completes normally - its fixed templates render under the handler's bindings,
so no exception escapes - returning Python's implicit `None` and discarding
its refinement result. -/
theorem c9_duplicate_route_first_handler_returns_none :
    ∀ (expertM reviewerM : PyStr → PyStr) (i : BookingInput),
      forecastHandlerFirst expertM reviewerM i = .ok none ∧
      forecastRouteRegistrations.length = 2 ∧
      forecastRouteRegistrations.getLast? = forecastRouteRegistrations.head? := by
  intro expertM reviewerM i
  exact ⟨forecastHandlerFirst_ok_none expertM reviewerM i, rfl, rfl⟩

/-- C4: for every `max_iterations ≤ 0`, `refine` returns immediately with an
empty log and `terminated_by = EXHAUSTED`; the result is the same constant for
every expert/reviewer model, so neither model is invoked. -/
theorem c4_nonpositive_budget_exhausted_empty_log
    (expertM reviewerM : PyStr → PyStr) (eT rT : PyStr) (extra : Bindings)
    (raw : PyStr) (policy : PyStr → Bool) (m : Int) (h : m ≤ 0) :
    refine expertM reviewerM eT rT extra raw policy m =
      .ok ⟨[], [], TerminatedBy.exhausted⟩ := by
  unfold refine
  rw [Int.toNat_of_nonpos h]
  rfl

/-- Witness for C4 at `max_iterations = -3`. -/
theorem c4_witness :
    (-3 : Int) ≤ 0 ∧
      refine (fun s => s) (fun s => s) [] [] [] [] defaultPolicy (-3) =
        .ok ⟨[], [], TerminatedBy.exhausted⟩ :=
  ⟨by decide,
   c4_nonpositive_budget_exhausted_empty_log (fun s => s) (fun s => s) [] [] [] []
     defaultPolicy (-3) (by decide)⟩

/-- C10: whenever either date fails to parse as `%Y-%m-%d`, the pricing
endpoint returns the fixed error object - the same value for every choice of
search, scrape and model collaborators, hence before any of them is invoked -
and that object does not have the declared `HotelPricingResponse` shape. -/
theorem c10_invalid_date_short_circuits
    (search : PyStr → List PyStr) (scrape : List PyStr → List PyStr)
    (expertM reviewerM : PyStr → PyStr) (hn hl sd ed : PyStr)
    (h : strptimeYmd sd = none ∨ strptimeYmd ed = none) :
    extract_hotel_pricing search scrape expertM reviewerM hn hl sd ed =
        .ok dateErrorJson ∧
      isHotelPricingShape dateErrorJson = false := by
  refine ⟨?_, by decide⟩
  unfold extract_hotel_pricing
  rcases h with h | h
  · rw [h]
  · cases hs : strptimeYmd sd with
    | none => rfl
    | some d1 => rw [h]

/-- Witness for C10: `2025-02-30` is rejected (February has no 30th). -/
theorem c10_witness :
    (strptimeYmd "2025-02-30".toList = none ∨
        strptimeYmd "2025-01-02".toList = none) ∧
      extract_hotel_pricing (fun _ => []) (fun _ => []) (fun s => s) (fun s => s)
          "Hilton".toList "Stony Brook".toList "2025-02-30".toList
          "2025-01-02".toList = .ok dateErrorJson ∧
      isHotelPricingShape dateErrorJson = false := by
  have h : strptimeYmd "2025-02-30".toList = none ∨
      strptimeYmd "2025-01-02".toList = none := Or.inl (by decide)
  exact ⟨h,
    c10_invalid_date_short_circuits (fun _ => []) (fun _ => []) (fun s => s)
      (fun s => s) "Hilton".toList "Stony Brook".toList "2025-02-30".toList
      "2025-01-02".toList h⟩

theorem refineLoop_default_exhausts (expertM reviewerM : PyStr → PyStr)
    (eT rT : PyStr) (extra : Bindings) (raw : PyStr)
    (hE : (render eT (("raw_text".toList, raw) :: extra)).isOk = true)
    (hR : ∀ s, (render rT (("extracted_output".toList, s) :: extra)).isOk = true) :
    ∀ (fuel i : Nat) (cur : PyStr) (log : List IterationRecord),
      ∃ r, refineLoop expertM reviewerM eT rT extra raw defaultPolicy
          fuel i cur log = .ok r ∧
        r.log.length = log.length + fuel ∧ r.terminatedBy = .exhausted := by
  intro fuel
  induction fuel with
  | zero =>
    intro i cur log
    exact ⟨⟨cur, log.reverse, .exhausted⟩, rfl, by simp, rfl⟩
  | succ f ih =>
    intro i cur log
    obtain ⟨ep, hep⟩ : ∃ ep, render eT (("raw_text".toList, raw) :: extra) = .ok ep := by
      cases h : render eT (("raw_text".toList, raw) :: extra) with
      | ok x => exact ⟨x, rfl⟩
      | error e => rw [h] at hE; exact absurd hE (by simp [Except.isOk, Except.toBool])
    obtain ⟨rp, hrp⟩ : ∃ rp, render rT
        (("extracted_output".toList, extractedText (expertM ep)) :: extra) = .ok rp := by
      cases h : render rT
          (("extracted_output".toList, extractedText (expertM ep)) :: extra) with
      | ok x => exact ⟨x, rfl⟩
      | error e =>
        have h2 := hR (extractedText (expertM ep))
        rw [h] at h2
        exact absurd h2 (by simp [Except.isOk, Except.toBool])
    obtain ⟨r, hr, hlen, hterm⟩ := ih (i + 1) (extractedText (expertM ep))
      (⟨i, ep, expertM ep, rp, reviewerM rp, false⟩ :: log)
    refine ⟨r, ?_, by simp at hlen; omega, hterm⟩
    simp only [refineLoop, hep, hrp, defaultPolicy, Bool.false_eq_true, if_false]
    exact hr

theorem refineLoop_log_le (expertM reviewerM : PyStr → PyStr) (eT rT : PyStr)
    (extra : Bindings) (raw : PyStr) (policy : PyStr → Bool) :
    ∀ (fuel i : Nat) (cur : PyStr) (log : List IterationRecord)
      (r : RefinementResult),
      refineLoop expertM reviewerM eT rT extra raw policy fuel i cur log = .ok r →
        r.log.length ≤ log.length + fuel := by
  intro fuel
  induction fuel with
  | zero =>
    intro i cur log r h
    have h2 : (⟨cur, log.reverse, .exhausted⟩ : RefinementResult) = r := by
      injection h
    rw [← h2]
    simp
  | succ f ih =>
    intro i cur log r h
    cases hep : render eT (("raw_text".toList, raw) :: extra) with
    | error e => simp only [refineLoop, hep] at h; exact absurd h (by simp)
    | ok ep =>
      cases hrp : render rT
          (("extracted_output".toList, extractedText (expertM ep)) :: extra) with
      | error e => simp only [refineLoop, hep, hrp] at h; exact absurd h (by simp)
      | ok rp =>
        simp only [refineLoop, hep, hrp] at h
        by_cases hacc : policy (reviewerM rp) = true
        · rw [if_pos hacc] at h
          have h2 : (⟨extractedText (expertM ep),
              (⟨i, ep, expertM ep, rp, reviewerM rp, policy (reviewerM rp)⟩ ::
                log).reverse, .accepted⟩ : RefinementResult) = r := by
            injection h
          rw [← h2]
          simp
        · rw [if_neg hacc] at h
          have h2 := ih (i + 1) (extractedText (expertM ep))
            (⟨i, ep, expertM ep, rp, reviewerM rp, policy (reviewerM rp)⟩ :: log) r h
          simp at h2
          omega

/-- C3: with no acceptance predicate supplied, the spec's default policy
never accepts, so whenever rendering succeeds the loop runs to the iteration
cap: the log holds exactly `max_iterations` records and
`terminated_by = EXHAUSTED`; moreover for any policy whatsoever the log never
exceeds `max_iterations` records.  (spec-modelled: `generic` is not under
`src/`.) -/
theorem c3_default_policy_runs_to_cap (expertM reviewerM : PyStr → PyStr)
    (eT rT : PyStr) (extra : Bindings) (raw : PyStr) (m : Int) (hm : 0 ≤ m)
    (hE : (render eT (("raw_text".toList, raw) :: extra)).isOk = true)
    (hR : ∀ s, (render rT (("extracted_output".toList, s) :: extra)).isOk = true) :
    (∃ r, refine expertM reviewerM eT rT extra raw defaultPolicy m = .ok r ∧
        r.log.length = m.toNat ∧ (m.toNat : Int) = m ∧
        r.terminatedBy = .exhausted) ∧
    (∀ (policy : PyStr → Bool) (r : RefinementResult),
        refine expertM reviewerM eT rT extra raw policy m = .ok r →
        r.log.length ≤ m.toNat) := by
  constructor
  · obtain ⟨r, hr, hlen, hterm⟩ := refineLoop_default_exhausts expertM reviewerM
      eT rT extra raw hE hR m.toNat 1 [] []
    exact ⟨r, hr, by simpa using hlen, Int.toNat_of_nonneg hm, hterm⟩
  · intro policy r h
    have h2 := refineLoop_log_le expertM reviewerM eT rT extra raw policy
      m.toNat 1 [] [] r h
    simpa using h2

/-- Witness for C3 at `max_iterations = 3` with placeholder-free templates. -/
theorem c3_witness :
    (0 : Int) ≤ 3 ∧
      (∃ r, refine (fun _ => "[7]".toList) (fun _ => "looks wrong".toList)
          "expert prompt".toList "reviewer prompt".toList [] [] defaultPolicy 3 =
            .ok r ∧
        r.log.length = (3 : Int).toNat ∧ ((3 : Int).toNat : Int) = 3 ∧
        r.terminatedBy = .exhausted) := by
  refine ⟨by decide, ?_⟩
  exact (c3_default_policy_runs_to_cap (fun _ => "[7]".toList)
    (fun _ => "looks wrong".toList) "expert prompt".toList
    "reviewer prompt".toList [] [] 3 (by decide) rfl (fun s => rfl)).1

/-- C1 counterexample: on `"no json here"` every strategy fails; the
diagnostic's `error` field is the literal `"Invalid JSON"`, not the claimed
`"Invalid structured data"`; and the diagnostic does not flow onward into the
endpoint's response - passing it to the response constructor makes pydantic
validation raise, so no response is produced. -/
theorem c1_counterexample :
    extractStructured "no json here".toList = .error "Expecting value".toList ∧
      competitorsOf "no json here".toList =
        .arr [.obj [("error".toList, .str "Invalid JSON".toList),
                    ("details".toList, .str "Expecting value".toList)]] ∧
      "Invalid JSON".toList ≠ "Invalid structured data".toList ∧
      pricingFinalize "h".toList "l".toList "d".toList "no json here".toList =
        .error pydanticValidationError := by
  refine ⟨rfl, rfl, by decide, rfl⟩

/-- C1 (amended): whenever parsing fails at every strategy, the extraction
itself never raises: it yields the diagnostic value `{error: "Invalid JSON",
details: <parser message>}` as an ordinary value (the model is a total
function).  The diagnostic - wrapped in a one-element `competitors` list - is
then passed to the `HotelPricingResponse` constructor, whose pydantic
validation rejects it, so the endpoint raises `ValidationError` instead of
returning a response carrying the diagnostic. -/
theorem c1_amended_failure_diagnostic_then_validation_raises
    (hn hl dr t e : PyStr) (h : extractStructured t = .error e) :
    competitorsOf t = .arr [invalidJsonDiag e] ∧
      validCompetitors (.arr [invalidJsonDiag e]) = false ∧
      pricingFinalize hn hl dr t = .error pydanticValidationError := by
  refine ⟨?_, rfl, pricingFinalize_raises_of_extract_error hn hl dr t e h⟩
  unfold competitorsOf
  rw [h]

/-- Witness for C1 at the failing output `"garbage"`. -/
theorem c1_witness :
    extractStructured "garbage".toList = .error "Expecting value".toList ∧
      competitorsOf "garbage".toList =
        .arr [invalidJsonDiag "Expecting value".toList] ∧
      validCompetitors (.arr [invalidJsonDiag "Expecting value".toList]) = false ∧
      pricingFinalize "h".toList "l".toList "d".toList "garbage".toList =
        .error pydanticValidationError := by
  have h : extractStructured "garbage".toList = .error "Expecting value".toList := rfl
  have h2 := c1_amended_failure_diagnostic_then_validation_raises "h".toList
    "l".toList "d".toList "garbage".toList "Expecting value".toList h
  exact ⟨h, h2.1, h2.2.1, h2.2.2⟩

/-- C8 counterexample: "without raising" fails on the pricing side, and the
forecast error object is unreachable on the live route.  On a final output
that never parses, the pricing endpoint's response constructor raises a
pydantic `ValidationError` instead of returning `competitors = [{"error":
..., "details": ...}]`; and the handler computing `{"error": "Invalid JSON
format in forecast output."}` is the dead second `/forecast` registration -
the live first handler returns `None`, never that object. -/
theorem c8_counterexample :
    pricingFinalize "h".toList "l".toList "d".toList "also bad".toList =
        .error pydanticValidationError ∧
      forecastHandlerFirst (fun _ => "bad".toList) (fun _ => "no".toList)
          ⟨"H".toList, "L".toList, "2025-01-01".toList, "2025-01-02".toList,
           [], []⟩ = .ok none := by
  exact ⟨pricingFinalize_raises_of_extract_error "h".toList "l".toList "d".toList
      "also bad".toList "Expecting value".toList rfl,
    forecastHandlerFirst_ok_none (fun _ => "bad".toList) (fun _ => "no".toList)
      ⟨"H".toList, "L".toList, "2025-01-01".toList, "2025-01-02".toList, [], []⟩⟩

/-- C8 (amended): when the loop's final output never parsed, the error-object
behaviour splits by endpoint.  The forecast normalization (the second,
shadowed `/forecast` handler) maps the output to the fixed
`{"error": "Invalid JSON format in forecast output."}` object as a value; the
live first `/forecast` handler returns `None` for every model pair and input;
and the pricing endpoint does not return the diagnostic `competitors` list
without raising - the constructor's pydantic validation raises
`ValidationError` on it. -/
theorem c8_amended_error_objects_dead_or_raising
    (f t hn hl dr ef et : PyStr)
    (hf : parseWhole f = .error ef) (ht : extractStructured t = .error et) :
    forecastFinalize f =
        .obj [("error".toList,
               .str "Invalid JSON format in forecast output.".toList)] ∧
      pricingFinalize hn hl dr t = .error pydanticValidationError ∧
      ∀ (expertM reviewerM : PyStr → PyStr) (i : BookingInput),
        forecastHandlerFirst expertM reviewerM i = .ok none := by
  refine ⟨?_, pricingFinalize_raises_of_extract_error hn hl dr t et ht,
    fun expertM reviewerM i => forecastHandlerFirst_ok_none expertM reviewerM i⟩
  unfold forecastFinalize
  rw [hf]

/-- Witness for C8 at the failing outputs `"not json"` and `"nope"`. -/
theorem c8_witness :
    parseWhole "not json".toList = .error "Expecting value".toList ∧
      extractStructured "nope".toList = .error "Expecting value".toList ∧
      forecastFinalize "not json".toList =
        .obj [("error".toList,
               .str "Invalid JSON format in forecast output.".toList)] ∧
      pricingFinalize "h".toList "l".toList "d".toList "nope".toList =
        .error pydanticValidationError ∧
      forecastHandlerFirst (fun s => s) (fun s => s)
          ⟨[], [], [], [], [], []⟩ = .ok none := by
  have hf : parseWhole "not json".toList = .error "Expecting value".toList := rfl
  have ht : extractStructured "nope".toList = .error "Expecting value".toList := rfl
  have h := c8_amended_error_objects_dead_or_raising "not json".toList
    "nope".toList "h".toList "l".toList "d".toList "Expecting value".toList
    "Expecting value".toList hf ht
  exact ⟨hf, ht, h.1, h.2.1, h.2.2 (fun s => s) (fun s => s) ⟨[], [], [], [], [], []⟩⟩

/-- C6: the extraction is a total function - every input, including empty,
truncated and multiply-bracketed text, yields either the parsed value or the
diagnostic list, never a crash - and the span selection is deterministic:
any text admitting a greedy outer-bracket decomposition (in particular any
multiply-bracketed text) has exactly one such span, and that span is what is
parsed. -/
theorem c6_extraction_total_and_span_deterministic :
    (∀ s : PyStr,
        (∃ v, extractStructured s = .ok v ∧ competitorsOf s = v) ∨
        (∃ e, extractStructured s = .error e ∧
          competitorsOf s = .arr [invalidJsonDiag e])) ∧
    (∀ t u u', IsGreedySpan (preprocess t) u → IsGreedySpan (preprocess t) u' →
        u = u' ∧ candidate t = u) := by
  constructor
  · intro s
    cases h : extractStructured s with
    | ok v => exact Or.inl ⟨v, rfl, by unfold competitorsOf; rw [h]⟩
    | error e => exact Or.inr ⟨e, rfl, by unfold competitorsOf; rw [h]⟩
  · intro t u u' hu hu'
    have h1 := (spanOf_eq_some_iff (preprocess t) u).mpr hu
    have h2 := (spanOf_eq_some_iff (preprocess t) u').mpr hu'
    have huu : u = u' := by
      rw [h1] at h2
      exact Option.some_inj.mp h2
    refine ⟨huu, ?_⟩
    unfold candidate
    rw [h1]

/-- Witness for C6 on the multiply-bracketed input `"[1] x [2]"`: the greedy
span is the whole text and it is the unique one. -/
theorem c6_witness :
    IsGreedySpan (preprocess "[1] x [2]".toList) "[1] x [2]".toList ∧
      candidate "[1] x [2]".toList = "[1] x [2]".toList ∧
      (∃ e, extractStructured "[1] x [2]".toList = .error e ∧
        competitorsOf "[1] x [2]".toList = .arr [invalidJsonDiag e]) := by
  have hg : IsGreedySpan (preprocess "[1] x [2]".toList) "[1] x [2]".toList := by
    refine ⟨[], "1] x [2".toList, [], ?_, ?_, by decide, by decide⟩
    · rfl
    · rfl
  refine ⟨hg, (c6_extraction_total_and_span_deterministic.2 "[1] x [2]".toList
    "[1] x [2]".toList "[1] x [2]".toList hg hg).2, ?_⟩
  rcases c6_extraction_total_and_span_deterministic.1 "[1] x [2]".toList with
    ⟨v, hv, _⟩ | ⟨e, he, hc⟩
  · exact absurd hv (by rw [show extractStructured "[1] x [2]".toList =
      .error "Extra data".toList from rfl]; simp)
  · exact ⟨e, he, hc⟩

/-- C2 counterexample: a brace-delimited object span embedded in prose is not
located by any strategy - the object parses on its own, yet the extraction
fails on the whole text - refuting the claimed handling of `{`/`}` spans. -/
theorem c2_counterexample :
    parseWhole (lbrace ++ "\"a\": 1".toList ++ rbrace) =
        .ok (.obj [("a".toList, .num 1)]) ∧
      extractStructured
        ("x ".toList ++ lbrace ++ "\"a\": 1".toList ++ rbrace ++ " y".toList) =
        .error "Expecting value".toList := by
  exact ⟨rfl, rfl⟩

/-- C2 (amended): the strategies apply in this order: (a) if the text starts
with the ```json fence tag, all fence-tag occurrences are removed and
trailing backticks and surrounding whitespace stripped; (b) on the resulting
text, if a greedy outer-bracket span exists - first `[` through last `]`
only; `{`/`}` spans are never located - that span is parsed; (c) otherwise
the whole (possibly cleaned) text is parsed. -/
theorem c2_amended_strategy_priority (t u : PyStr) :
    (isPre fenceTag t = true →
        preprocess t = pyStripWs (rstripTicks (stripFences t))) ∧
    (isPre fenceTag t = false → preprocess t = t) ∧
    (IsGreedySpan (preprocess t) u → extractStructured t = parseWhole u) ∧
    ((¬ ∃ w, IsGreedySpan (preprocess t) w) →
        extractStructured t = parseWhole (preprocess t)) := by
  refine ⟨?_, ?_, ?_, ?_⟩
  · intro h
    unfold preprocess
    rw [if_pos h]
  · intro h
    unfold preprocess
    rw [if_neg (by rw [h]; exact Bool.false_ne_true)]
  · intro h
    have h1 := (spanOf_eq_some_iff (preprocess t) u).mpr h
    unfold extractStructured candidate
    rw [h1]
  · intro h
    cases hs : spanOf (preprocess t) with
    | some w => exact absurd ⟨w, (spanOf_eq_some_iff (preprocess t) w).mp hs⟩ h
    | none =>
      unfold extractStructured candidate
      rw [hs]

/-- Witness for C2: a fenced input is cleaned, a prose-wrapped array span is
selected and parsed, and a bracket-free input falls back to whole-text
parsing. -/
theorem c2_witness :
    (isPre fenceTag "```json\n[1, 2]\n```".toList = true ∧
      preprocess "```json\n[1, 2]\n```".toList = "[1, 2]".toList) ∧
    (IsGreedySpan (preprocess "see [1, 2] ok".toList) "[1, 2]".toList ∧
      extractStructured "see [1, 2] ok".toList = parseWhole "[1, 2]".toList) ∧
    ((¬ ∃ w, IsGreedySpan (preprocess "plain text".toList) w) ∧
      extractStructured "plain text".toList =
        parseWhole (preprocess "plain text".toList)) := by
  have hfence : isPre fenceTag "```json\n[1, 2]\n```".toList = true := by decide
  have hspan : IsGreedySpan (preprocess "see [1, 2] ok".toList) "[1, 2]".toList := by
    refine ⟨"see ".toList, "1, 2".toList, " ok".toList, ?_, ?_, by decide, by decide⟩
    · rfl
    · rfl
  have hnone : ¬ ∃ w, IsGreedySpan (preprocess "plain text".toList) w := by
    rintro ⟨w, hw⟩
    have h1 := (spanOf_eq_some_iff (preprocess "plain text".toList) w).mpr hw
    exact Option.noConfusion
      (show (none : Option PyStr) = some w from h1)
  refine ⟨⟨hfence, ?_⟩,
    ⟨hspan, (c2_amended_strategy_priority "see [1, 2] ok".toList "[1, 2]".toList).2.2.1 hspan⟩,
    ⟨hnone, (c2_amended_strategy_priority "plain text".toList []).2.2.2 hnone⟩⟩
  exact ((c2_amended_strategy_priority "```json\n[1, 2]\n```".toList []).1 hfence).trans rfl

theorem extractStructured_ser_arr (l : List Json) :
    extractStructured (ser (.arr l)) = .ok (.arr l) := by
  have hpre : preprocess (ser (.arr l)) = ser (.arr l) := preprocess_ser _
  have hspan : spanOf (ser (.arr l)) = some (ser (.arr l)) := by
    apply (spanOf_eq_some_iff _ _).mpr
    exact ⟨[], serElems l, [], by simp, by simp [ser], by simp, by simp⟩
  unfold extractStructured candidate
  rw [hpre, hspan]
  exact parseWhole_ser _

/-- C7 counterexample: the text `{"a": [1], "b": [2]}` is already-clean
structured text (it parses whole as an object), yet extraction fails on it:
the greedy `[`-to-`]` span `[1], "b": [2]` wins over whole-text parsing and
is not valid JSON, so the first application yields no parsed value at all. -/
theorem c7_counterexample :
    parseWhole (lbrace ++ "\"a\": [1], \"b\": [2]".toList ++ rbrace) =
        .ok (.obj [("a".toList, .arr [.num 1]), ("b".toList, .arr [.num 2])]) ∧
      extractStructured (lbrace ++ "\"a\": [1], \"b\": [2]".toList ++ rbrace) =
        .error "Extra data".toList := by
  exact ⟨rfl, rfl⟩

/-- C7 (amended): extraction is idempotent on extractions that yield an array
- the shape already-clean array text produces: whenever
`extract_structured(x)` succeeds with an array value `v`, serializing `v`
back to text and extracting again succeeds and yields the same parsed value
as the first application. -/
theorem c7_amended_idempotent_on_arrays (x : PyStr) (l : List Json)
    (h : extractStructured x = .ok (.arr l)) :
    extractStructured (ser (.arr l)) = .ok (.arr l) ∧
      extractStructured (ser (.arr l)) = extractStructured x := by
  refine ⟨extractStructured_ser_arr l, ?_⟩
  rw [extractStructured_ser_arr l, h]

/-- Witness for C7 on the clean array text `"  [1, 2]  "`. -/
theorem c7_witness :
    extractStructured "  [1, 2]  ".toList = .ok (.arr [.num 1, .num 2]) ∧
      extractStructured (ser (.arr [.num 1, .num 2])) =
        extractStructured "  [1, 2]  ".toList := by
  have h : extractStructured "  [1, 2]  ".toList = .ok (.arr [.num 1, .num 2]) := rfl
  exact ⟨h, (c7_amended_idempotent_on_arrays "  [1, 2]  ".toList
    [.num 1, .num 2] h).2⟩

/-- C5: the forecast acceptance predicate accepts exactly the texts containing
the token `APPROVED` case-insensitively (a substring whose ASCII uppercasing
is the token); being a pure function of its argument, it is stateless and
repeated calls agree by definition. -/
theorem c5_accept_iff_contains_approved (feedback : PyStr) :
    forecastAccept feedback = true ↔
      ∃ a w b, feedback = a ++ w ++ b ∧ pyUpper w = approvedToken := by
  unfold forecastAccept
  rw [containsSub_iff]
  constructor
  · rintro ⟨a, b, h⟩
    rcases map_eq_append_split Char.toUpper feedback a (approvedToken ++ b)
        (by simpa [pyUpper] using h) with ⟨s1, s2, hs, h1, h2⟩
    rcases map_eq_append_split Char.toUpper s2 approvedToken b h2 with
      ⟨t1, t2, ht, g1, g2⟩
    exact ⟨s1, t1, t2, by simp [hs, ht], g1⟩
  · rintro ⟨a, w, b, h, hw⟩
    refine ⟨pyUpper a, pyUpper b, ?_⟩
    simp [pyUpper, h, ← hw, List.append_assoc]

end Dashboard
